import Mathlib

/-!
Verification of the `hid` (mouse2joystick) repository.

The development shallowly embeds the two historical variants of the program:
`src/mouse2joystick-lib/src/{input_device_pool,uinput,lib}.rs` (the library
variant) and `src/src/{input_device_pool,uinput,main}.rs` (the binary
variant).  Devices are identified by their path (modelled as a natural
number); the mio `Poll` registry, which every pool operation threads as a
`&mut Poll` argument, is modelled as an explicit list of
(device path, token) registrations carried in the `registry` field.
`f32` quantities of the motion pipeline are modelled as exact rationals and
the `usize` token arithmetic as naturals with explicit wrap-around at
`2 ^ 64` (the semantics of release-mode `usize` subtraction).
-/

/-- Device paths; `PathBuf` values are opaque identifiers for the pool, so a
natural number stands for a path. -/
abbrev DevPath := Nat

/-- Wrapping `usize` subtraction: `a.wrapping_sub b` for `a b : usize`,
which is what `tok - self.token_start` computes in release builds. -/
def usizeSub (a b : Nat) : Nat := (a + (2 ^ 64 - b % 2 ^ 64)) % 2 ^ 64

/-- Mirrors `Vec::swap(i, j)`: exchange the elements at positions `i` and
`j` (on the in-bounds inputs the pool ever uses). -/
def listSwap (l : List DevPath) (i j : Nat) : List DevPath :=
  (l.set i (l.getD j 0)).set j (l.getD i 0)

/-- Mirrors `poll.registry().register(device, token, ..)`: record a new
(path, token) registration. -/
def pollRegister (reg : List (DevPath × Nat)) (d : DevPath) (t : Nat) :
    List (DevPath × Nat) :=
  reg ++ [(d, t)]

/-- Mirrors `poll.registry().reregister(device, token, ..)`: rebind the
registration of the device at path `d` to token `t`. -/
def pollReregister (reg : List (DevPath × Nat)) (d : DevPath) (t : Nat) :
    List (DevPath × Nat) :=
  reg.map fun e => if e.1 = d then (d, t) else e

/-- Mirrors `poll.registry().deregister(device)`: drop the registration of
the device at path `d`. -/
def pollDeregister (reg : List (DevPath × Nat)) (d : DevPath) :
    List (DevPath × Nat) :=
  reg.filter fun e => e.1 ≠ d

/-- `InputDevicePool` from `src/mouse2joystick-lib/src/input_device_pool.rs`
(fields `pathes`, `token_start`, `devices`), together with the mio `Poll`
registrations (`registry`) that the Rust code threads as `&mut Poll`.
A device is represented by its path. -/
structure InputDevicePool where
  pathes : List DevPath
  token_start : Nat
  devices : List DevPath
  registry : List (DevPath × Nat)
  deriving Repr, DecidableEq

/-- `InputDevicePool::new(token_start)`. -/
def InputDevicePool.new (token_start : Nat) : InputDevicePool :=
  { pathes := [], token_start := token_start, devices := [], registry := [] }

/-- `InputDevicePool::as_token(index)`. -/
def InputDevicePool.as_token (p : InputDevicePool) (index : Nat) : Nat :=
  p.token_start + index

/-- `InputDevicePool::index_from_token(Token(tok))`, i.e. the `usize`
subtraction `tok - self.token_start` (wrapping in release builds). -/
def InputDevicePool.index_from_token (p : InputDevicePool) (tok : Nat) : Nat :=
  usizeSub tok p.token_start

/-- `InputDevicePool::next_free_token()`. -/
def InputDevicePool.next_free_token (p : InputDevicePool) : Nat :=
  p.as_token p.devices.length

/-- `InputDevicePool::contains(token)`. -/
def InputDevicePool.contains (p : InputDevicePool) (tok : Nat) : Bool :=
  p.index_from_token tok < p.devices.length

/-- `InputDevicePool::get_mut(token)` (the binary variant's `get` is the
same lookup): `self.devices.get_mut(index)`. -/
def InputDevicePool.get_mut (p : InputDevicePool) (tok : Nat) : Option DevPath :=
  p.devices[p.index_from_token tok]?

/-- `InputDevicePool::insert(device, poll)` from the library variant, with
the outcome of the fallible `poll.registry().register` call made explicit:
`regOk = false` means registration returns `Err` (which `?` propagates
after `self.devices.push(device)` has already happened).  Returns the new
state together with `true` for `Ok(())` and `false` for `Err`. -/
def InputDevicePool.insertE (p : InputDevicePool) (d : DevPath) (regOk : Bool) :
    InputDevicePool × Bool :=
  if d ∈ p.pathes then (p, true)
  else
    let token := p.next_free_token
    let p1 := { p with pathes := d :: p.pathes, devices := p.devices ++ [d] }
    if regOk then ({ p1 with registry := pollRegister p1.registry d token }, true)
    else (p1, false)

/-- `InputDevicePool::insert` on the happy path (registration succeeds). -/
def InputDevicePool.insert (p : InputDevicePool) (d : DevPath) : InputDevicePool :=
  (p.insertE d true).1

/-- `InputDevicePool::insert_from_path(poll, path)` from the binary
variant (`src/src/input_device_pool.rs` lines 39-53, likewise
`src/src/main.rs` lines 143-157): open the device and push it
unconditionally -- that variant's struct has no `pathes` set and the
function performs no duplicate check, it assigns the next free token,
appends the device and registers it.  (The `pathes` field of the shared
model is left unchanged, mirroring its absence in that variant.) -/
def InputDevicePool.insert_from_path (p : InputDevicePool) (d : DevPath) :
    InputDevicePool :=
  { p with devices := p.devices ++ [d],
           registry := pollRegister p.registry d p.next_free_token }

/-- `InputDevicePool::find_path(path)`: index of the first device whose
path equals `d`. -/
def findIdxFrom (d : DevPath) : List DevPath → Option Nat
  | [] => none
  | e :: rest => if e = d then some 0 else (findIdxFrom d rest).map (· + 1)

/-- `InputDevicePool::find_path(path)`. -/
def InputDevicePool.find_path (p : InputDevicePool) (d : DevPath) : Option Nat :=
  findIdxFrom d p.devices

/-- Second half of `InputDevicePool::delete`: `self.devices.pop().unwrap()`
followed by `self.pathes.remove(&poped_device.path)` and
`poll.registry().deregister(&mut poped_device)`.  The source is marked
"CRASH ON OOB": on an empty pool the Rust `unwrap` panics; here the state
is returned unchanged (never exercised by the theorems below, which stay in
bounds). -/
def deletePop (p : InputDevicePool) : InputDevicePool :=
  match p.devices.getLast? with
  | none => p
  | some poped =>
      { p with devices := p.devices.dropLast,
               pathes := p.pathes.filter (fun q => q ≠ poped),
               registry := pollDeregister p.registry poped }

/-- `InputDevicePool::delete(poll, index)`: swap-remove.  If `index` is not
the last index, swap it with the last slot and rebind the relocated
device's (`self.devices[index]` after the swap) registration to
`as_token(index)`; then pop the last slot, remove its path from `pathes`
and deregister it (`deletePop`). -/
def InputDevicePool.delete (p : InputDevicePool) (index : Nat) : InputDevicePool :=
  deletePop
    (if index = p.devices.length - 1 then p
     else
       { p with
         devices := listSwap p.devices index (p.devices.length - 1),
         registry := pollReregister p.registry
           ((listSwap p.devices index (p.devices.length - 1)).getD index 0)
           (p.as_token index) })

/-- `InputDevicePool::delete_from_path(poll, path)`: no-op if the path is
absent. -/
def InputDevicePool.delete_from_path (p : InputDevicePool) (d : DevPath) :
    InputDevicePool :=
  match p.find_path d with
  | some i => p.delete i
  | none => p

/-- `InputDevicePool::delete_from_token(poll, token)`. -/
def InputDevicePool.delete_from_token (p : InputDevicePool) (tok : Nat) :
    InputDevicePool :=
  p.delete (p.index_from_token tok)

/-- Insert a batch of devices, as `import_devices` does for an enumeration
of paths. -/
def InputDevicePool.insert_all (p : InputDevicePool) (ds : List DevPath) :
    InputDevicePool :=
  ds.foldl InputDevicePool.insert p

/-- A hot-plug driven pool operation: an `Added(path)` notification turns
into `insert`, a `Removed(path)` one into `delete_from_path`. -/
inductive PoolOp where
  | ins (d : DevPath)
  | del (d : DevPath)
  deriving Repr, DecidableEq

/-- Run a sequence of hot-plug pool operations. -/
def InputDevicePool.apply_ops (p : InputDevicePool) (ops : List PoolOp) :
    InputDevicePool :=
  ops.foldl (fun q op => match op with
    | .ins d => q.insert d
    | .del d => q.delete_from_path d) p

/-- The registrations a pool with device list `ds` should hold when tokens
start at `t`: the `k`-th device registered under token `t + k`. -/
def regFrom (t : Nat) : List DevPath → List (DevPath × Nat)
  | [] => []
  | d :: ds => (d, t) :: regFrom (t + 1) ds

/-- Well-formedness tying the three pool fields together: device paths are
pairwise distinct, `pathes` is the set of device paths, and the `Poll`
registrations are (up to order) exactly one registration per device under
its positional token. -/
def InputDevicePool.Inv (p : InputDevicePool) : Prop :=
  p.devices.Nodup ∧ (∀ d, d ∈ p.pathes ↔ d ∈ p.devices) ∧
    p.registry.Perm (regFrom p.token_start p.devices)

/-- The test scenario of the specification: insert the devices `ps` into an
empty pool with tokens starting at `s`, then remove the `i`-th one by its
path. -/
def scenarioPool (s : Nat) (ps : List DevPath) (i : Nat) : InputDevicePool :=
  ((InputDevicePool.new s).insert_all ps).delete_from_path (ps.getD i 0)

/-- The path-uniqueness part of the pool invariant: no two devices share a
path, and `pathes` is exactly the set of device paths. -/
def InputDevicePool.PathsUnique (p : InputDevicePool) : Prop :=
  p.devices.Nodup ∧ ∀ d, d ∈ p.pathes ↔ d ∈ p.devices

/-! ## The virtual mouse and the motion integrator

`f32` arithmetic is modelled by exact rationals; the `as i32` cast is
truncation toward zero (`ratTrunc`). -/

/-- The two relative axes `REL_X` / `REL_Y`. -/
inductive Axis where
  | ax
  | ay
  deriving Repr, DecidableEq

/-- An event written to the virtual device: a relative-axis event or a
`SYN_REPORT` synchronization marker. -/
inductive Ev where
  | rel (a : Axis) (value : Int)
  | syn
  deriving Repr, DecidableEq

/-- `UInputMouse` from `src/src/uinput.rs`, abstracted to the trace of
events written to the kernel device. -/
structure UInputMouse where
  trace : List Ev
  deriving Repr, DecidableEq

/-- `UInputMouse::move_mouse(ev_rel, value)` from `src/src/uinput.rs`
(lines 46-61): write the relative event, then write a `SYN_REPORT`. -/
def UInputMouse.move_mouse (m : UInputMouse) (a : Axis) (value : Int) :
    UInputMouse :=
  { m with trace := m.trace ++ [Ev.rel a value, Ev.syn] }

/-- `UInputMouse::move_mouse_x`. -/
def UInputMouse.move_mouse_x (m : UInputMouse) (x : Int) : UInputMouse :=
  m.move_mouse Axis.ax x

/-- `UInputMouse::move_mouse_y`. -/
def UInputMouse.move_mouse_y (m : UInputMouse) (y : Int) : UInputMouse :=
  m.move_mouse Axis.ay y

/-- `JoystickConfig`: `dead_zone`, `half_amplitude` (named `max` in the
binary variant), `offset`.  The `angle` field is represented downstream by
the pair `(sin, cos)` that `f32::sin_cos` computes from it, since
trigonometry of the angle is not modelled. -/
structure JoystickConfig where
  dead_zone : Rat
  half_amplitude : Rat
  offset : Rat
  deriving Repr, DecidableEq

/-- `MouseConfig`. -/
structure MouseConfig where
  speed : Rat
  deriving Repr, DecidableEq

/-- `f32::signum`: `1.0` for positive values and `+0.0`, `-1.0` for
negative values (never `0`). -/
def fsignum (q : Rat) : Rat := if q < 0 then -1 else 1

/-- `f32::clamp(lo, hi)`. -/
def fclamp (x lo hi : Rat) : Rat := if x < lo then lo else if hi < x then hi else x

/-- The `convert` closure of `VMouseManager::map_event` (both variants,
`src/mouse2joystick-lib/src/uinput.rs` lines 63-72 and `src/src/uinput.rs`
lines 90-99): centre, take sign and magnitude, rescale out of the dead
zone and clamp to `[0, 1]`, restore the sign. -/
def convert (cfg : JoystickConfig) (value : Rat) : Rat :=
  let fcentered := value - cfg.offset
  let sign := fsignum fcentered
  let fabs := |fcentered|
  let fabs2 := (fabs - cfg.dead_zone) / (cfg.half_amplitude - cfg.dead_zone)
  sign * fclamp fabs2 0 1

/-- The payload of an `InputEvent` as far as `map_event` is concerned:
an `ABS_X` or `ABS_Y` sample, or anything else (ignored). -/
inductive AbsEvent where
  | absX (value : Rat)
  | absY (value : Rat)
  | other
  deriving Repr, DecidableEq

/-- `VMouseManager` (both variants): integrator state. `vmouse` is the
virtual device. -/
structure VMouseManager where
  vmouse : UInputMouse
  ddx : Rat
  ddy : Rat
  dx : Rat
  dy : Rat
  speed_multiplier : Rat
  val_x : Rat
  val_y : Rat
  deriving Repr, DecidableEq

/-- `VMouseManager::new(config)`. -/
def VMouseManager.new (config : MouseConfig) : VMouseManager :=
  { vmouse := { trace := [] }, ddx := 0, ddy := 0, dx := 0, dy := 0,
    speed_multiplier := config.speed, val_x := 0, val_y := 0 }

/-- Record the incoming sample in `val_x` / `val_y` (the `match` at the
head of both `map_event` variants). -/
def VMouseManager.record_event (m : VMouseManager) (ev : AbsEvent) :
    VMouseManager :=
  match ev with
  | .absX v => { m with val_x := v }
  | .absY v => { m with val_y := v }
  | .other => m

/-- `VMouseManager::map_event` from `src/mouse2joystick-lib/src/uinput.rs`
(lines 62-84): record the sample, normalize each axis with `convert`, then
rotate the normalized pair by the configured angle, whose sine and cosine
are the parameters `sin`, `cos`. -/
def VMouseManager.map_event_lib (m : VMouseManager) (cfg : JoystickConfig)
    (sin cos : Rat) (ev : AbsEvent) : VMouseManager :=
  let m := m.record_event ev
  let v_x := convert cfg m.val_x
  let v_y := convert cfg m.val_y
  { m with ddx := v_x * cos + v_y * sin, ddy := -v_x * sin + v_y * cos }

/-- `VMouseManager::map_event` from `src/src/uinput.rs` (lines 89-109):
record the sample, rotate the raw pair by the configured angle, then
normalize each rotated component with `convert`. -/
def VMouseManager.map_event_src (m : VMouseManager) (cfg : JoystickConfig)
    (sin cos : Rat) (ev : AbsEvent) : VMouseManager :=
  let m := m.record_event ev
  { m with ddx := convert cfg (m.val_x * cos + m.val_y * sin),
           ddy := convert cfg (-m.val_x * sin + m.val_y * cos) }

/-- The `as i32` cast of an accumulator: truncation toward zero,
saturating at the i32 bounds (Rust float-to-int casts clamp out-of-range
values to the target type's range). -/
def ratTrunc (q : Rat) : Int :=
  max (-(2 ^ 31)) (min (2 ^ 31 - 1) (if 0 ≤ q then ⌊q⌋ else ⌈q⌉))

/-- The x accumulator after the first statement of `send_event`:
`self.dx += dt * self.speed_multiplier * self.ddx`. -/
def preX (m : VMouseManager) (dt : Rat) : Rat :=
  m.dx + dt * m.speed_multiplier * m.ddx

/-- The y accumulator after `self.dy += dt * self.speed_multiplier *
self.ddy`. -/
def preY (m : VMouseManager) (dt : Rat) : Rat :=
  m.dy + dt * m.speed_multiplier * m.ddy

/-- `VMouseManager::send_event(dt)` (both variants,
`src/mouse2joystick-lib/src/uinput.rs` lines 86-103 and
`src/src/uinput.rs` lines 111-128), on the success path: accumulate
`dt * speed_multiplier * dd{x,y}` into the remainders, and for each axis
whose remainder has reached magnitude `1.0` emit its truncation and
subtract the emitted whole part. -/
def VMouseManager.send_event (m : VMouseManager) (dt : Rat) : VMouseManager :=
  let m1 := { m with dx := m.dx + dt * m.speed_multiplier * m.ddx,
                     dy := m.dy + dt * m.speed_multiplier * m.ddy }
  let m2 :=
    if 1 ≤ |m1.dx| then
      { m1 with vmouse := m1.vmouse.move_mouse_x (ratTrunc m1.dx),
                dx := m1.dx - (ratTrunc m1.dx : Int) }
    else m1
  if 1 ≤ |m2.dy| then
    { m2 with vmouse := m2.vmouse.move_mouse_y (ratTrunc m2.dy),
              dy := m2.dy - (ratTrunc m2.dy : Int) }
  else m2

/-- One flush of a single axis of the integrator (the x-axis projection of
`send_event`): from remainder `r`, a time step `dt` and the current
normalized velocity `v`, produce the new remainder and the emitted whole
displacement. -/
def flushAxis (mult r dt v : Rat) : Rat × Int :=
  let r1 := r + dt * mult * v
  if 1 ≤ |r1| then (r1 - ratTrunc r1, ratTrunc r1) else (r1, 0)

/-- Iterate `flushAxis` over a sequence of `(dt, velocity)` flushes,
accumulating the total emitted displacement. -/
def runFlushes (mult : Rat) : Rat -> Int -> List (Rat × Rat) -> Rat × Int
  | r, tot, [] => (r, tot)
  | r, tot, p :: ps =>
      runFlushes mult (flushAxis mult r p.1 p.2).1 (tot + (flushAxis mult r p.1 p.2).2) ps

/-! ## The event-loop error dispatch -/

/-- The shape of a `std::io::Error` as the two event loops inspect it:
its `kind` compared against `WouldBlock`, and its `raw_os_error()`
(`Some(19)` is `ENODEV`, the device-gone condition). -/
structure IoErr where
  isWouldBlock : Bool
  rawOs : Option Nat
  deriving Repr, DecidableEq

/-- The per-device-token dispatch of `run_loop` in
`src/mouse2joystick-lib/src/lib.rs` (lines 117-131), as a function of the
outcome of `process_event` (`none` = `Ok`): `WouldBlock` is ignored,
`raw_os_error == Some(19)` removes the device by token, and any other
error hits `e.expect("Can't fetch events")`, which aborts the process —
the returned `Bool` is `true` when the process panics. -/
def libDispatch (p : InputDevicePool) (tok : Nat) (err : Option IoErr) :
    InputDevicePool × Bool :=
  match err with
  | none => (p, false)
  | some e =>
    if e.isWouldBlock then (p, false)
    else if e.rawOs = some 19 then (p.delete_from_token tok, false)
    else (p, true)

/-- The per-device-token dispatch of `main` in `src/src/main.rs`
(lines 360-381), as a function of the first failing `next_event` outcome:
every error is only logged (`eprintln`), the failing sample is dropped,
the drain loop `break`s, the pool is untouched, and the iteration
continues, so the flag is always `false` (never fatal) and the pool is
returned unchanged. -/
def mainDispatch (p : InputDevicePool) (_tok : Nat) (err : Option IoErr) :
    InputDevicePool × Bool :=
  match err with
  | none => (p, false)
  | some _ => (p, false)

/-! ### Arithmetic of wrapping token subtraction -/

theorem usizeSub_of_le (a b : Nat) (hba : b ≤ a) (ha : a < 2 ^ 64) :
    usizeSub a b = a - b := by
  unfold usizeSub
  have hb : b % 2 ^ 64 = b := Nat.mod_eq_of_lt (by omega)
  rw [hb]
  have h1 : a + (2 ^ 64 - b) = (a - b) + 1 * 2 ^ 64 := by omega
  rw [h1, Nat.add_mul_mod_self_right, Nat.mod_eq_of_lt (by omega)]

theorem usizeSub_of_lt (a b : Nat) (hab : a < b) (hb : b < 2 ^ 64) :
    usizeSub a b = 2 ^ 64 - (b - a) := by
  unfold usizeSub
  have hb' : b % 2 ^ 64 = b := Nat.mod_eq_of_lt (by omega)
  rw [hb', Nat.mod_eq_of_lt (by omega)]
  omega

/-- The bounds check `contains` recognises exactly the contiguous token
range `[token_start, token_start + devices.len())`, for any token and pool
within `usize` range. -/
theorem InputDevicePool.contains_iff (p : InputDevicePool) (tok : Nat)
    (htok : tok < 2 ^ 64) (hts : p.token_start < 2 ^ 64)
    (hsz : p.token_start + p.devices.length ≤ 2 ^ 64) :
    p.contains tok = true ↔
      p.token_start ≤ tok ∧ tok < p.token_start + p.devices.length := by
  unfold InputDevicePool.contains InputDevicePool.index_from_token
  rcases Nat.lt_or_ge tok p.token_start with hlt | hge
  · rw [usizeSub_of_lt tok p.token_start hlt hts]
    simp only [decide_eq_true_eq]
    omega
  · rw [usizeSub_of_le tok p.token_start hge htok]
    simp only [decide_eq_true_eq]
    omega

theorem InputDevicePool.get_mut_in_range (p : InputDevicePool) (j : Nat)
    (hj : j < p.devices.length) (hsz : p.token_start + p.devices.length ≤ 2 ^ 64) :
    p.get_mut (p.token_start + j) = p.devices[j]? := by
  unfold InputDevicePool.get_mut InputDevicePool.index_from_token
  rw [usizeSub_of_le _ _ (by omega) (by omega)]
  simp

/-! ### The expected registration list -/

theorem regFrom_length (t : Nat) (l : List DevPath) :
    (regFrom t l).length = l.length := by
  induction l generalizing t with
  | nil => simp [regFrom]
  | cons d ds ih => simp [regFrom, ih]

theorem regFrom_append (t : Nat) (u v : List DevPath) :
    regFrom t (u ++ v) = regFrom t u ++ regFrom (t + u.length) v := by
  induction u generalizing t with
  | nil => simp [regFrom]
  | cons d ds ih => simp [regFrom, ih, Nat.add_assoc, Nat.add_comm 1]

theorem regFrom_mem (t : Nat) (l : List DevPath) (j : Nat) (hj : j < l.length) :
    (l.getD j 0, t + j) ∈ regFrom t l := by
  induction l generalizing t j with
  | nil => simp at hj
  | cons d ds ih =>
    cases j with
    | zero => simp [regFrom]
    | succ j =>
      have := ih (t + 1) j (by simpa using hj)
      simp only [regFrom, List.getD_cons_succ, List.mem_cons]
      right
      simpa [Nat.add_assoc, Nat.add_comm 1] using this

theorem regFrom_fst_mem (t : Nat) (l : List DevPath) (e : DevPath × Nat)
    (he : e ∈ regFrom t l) : e.1 ∈ l := by
  induction l generalizing t with
  | nil => simp [regFrom] at he
  | cons d ds ih =>
    simp only [regFrom, List.mem_cons] at he
    rcases he with rfl | he
    · simp
    · simp [ih _ he]

theorem pollReregister_not_mem (reg : List (DevPath × Nat)) (d : DevPath)
    (t : Nat) (hd : ∀ e ∈ reg, e.1 ≠ d) : pollReregister reg d t = reg := by
  unfold pollReregister
  conv_rhs => rw [← List.map_id reg]
  refine List.map_congr_left fun e he => ?_
  simp [hd e he]

theorem pollDeregister_not_mem (reg : List (DevPath × Nat)) (d : DevPath)
    (hd : ∀ e ∈ reg, e.1 ≠ d) : pollDeregister reg d = reg := by
  unfold pollDeregister
  refine List.filter_eq_self.2 fun e he => ?_
  simpa using hd e he

theorem regFrom_map_snd (t : Nat) (l : List DevPath) :
    (regFrom t l).map Prod.snd = List.range' t l.length := by
  induction l generalizing t with
  | nil => simp [regFrom]
  | cons d ds ih => simp [regFrom, List.range', ih]

/-! ### `find_path` -/

theorem findIdxFrom_nodup (l : List DevPath) (i : Nat) (hi : i < l.length)
    (hnd : l.Nodup) : findIdxFrom (l.getD i 0) l = some i := by
  induction l generalizing i with
  | nil => simp at hi
  | cons d ds ih =>
    cases i with
    | zero => simp [findIdxFrom]
    | succ i =>
      have hi' : i < ds.length := by simpa using hi
      have hne : d ≠ ds.getD i 0 := by
        intro h
        have hmem : ds.getD i 0 ∈ ds := by
          rw [List.getD_eq_getElem?_getD, List.getElem?_eq_getElem hi']
          exact List.getElem_mem hi'
        exact (List.nodup_cons.1 hnd).1 (h ▸ hmem)
      rw [List.getD_cons_succ]
      unfold findIdxFrom
      rw [if_neg hne, ih i hi' (List.nodup_cons.1 hnd).2]
      rfl

theorem findIdxFrom_bound (d : DevPath) (l : List DevPath) (i : Nat)
    (h : findIdxFrom d l = some i) : i < l.length ∧ l.getD i 0 = d := by
  induction l generalizing i with
  | nil => simp [findIdxFrom] at h
  | cons e ds ih =>
    by_cases hed : e = d
    · simp [findIdxFrom, hed] at h
      subst hed h
      simp
    · simp only [findIdxFrom, if_neg hed, Option.map_eq_some'] at h
      obtain ⟨j, hj, rfl⟩ := h
      refine ⟨by have := (ih j hj).1; simp only [List.length_cons]; omega, ?_⟩
      simpa using (ih j hj).2

theorem findIdxFrom_none (d : DevPath) (l : List DevPath)
    (h : findIdxFrom d l = none) : d ∉ l := by
  induction l with
  | nil => simp
  | cons e ds ih =>
    by_cases hed : e = d
    · simp [findIdxFrom, hed] at h
    · simp only [findIdxFrom, if_neg hed, Option.map_eq_none'] at h
      simp [ih h, Ne.symm hed]

/-! ### The swap-remove geometry of `delete` -/

theorem listSwap_mid (u v : List DevPath) (y x : DevPath) :
    listSwap ((u ++ y :: v) ++ [x]) u.length (u.length + (v.length + 1)) =
      (u ++ x :: v) ++ [y] := by
  unfold listSwap
  have hg1 : ((u ++ y :: v) ++ [x]).getD (u.length + (v.length + 1)) 0 = x := by
    rw [List.getD_append_right _ _ _ _ (by simp)]
    simp
  have hg2 : ((u ++ y :: v) ++ [x]).getD u.length 0 = y := by
    rw [List.getD_append _ _ _ _ (by simp),
      List.getD_append_right _ _ _ _ (le_refl _), Nat.sub_self]
    rfl
  rw [hg1, hg2]
  rw [List.set_append_left _ _ (by simp),
    List.set_append_right _ _ (le_refl _), Nat.sub_self, List.set_cons_zero]
  rw [List.set_append_right _ _ (by simp)]
  have hidx : u.length + (v.length + 1) - (u ++ x :: v).length = 0 := by
    simp
  rw [hidx, List.set_cons_zero]

theorem delete_spec_mid (P : List DevPath) (s : Nat) (R : List (DevPath × Nat))
    (u v : List DevPath) (y x : DevPath) :
    InputDevicePool.delete ⟨P, s, (u ++ y :: v) ++ [x], R⟩ u.length =
      ⟨P.filter (fun q => q ≠ y), s, u ++ x :: v,
        pollDeregister (pollReregister R x (s + u.length)) y⟩ := by
  unfold InputDevicePool.delete
  have hlen : ((u ++ y :: v) ++ [x]).length - 1 = u.length + (v.length + 1) := by
    simp only [List.length_append, List.length_cons, List.length_nil]
    omega
  rw [if_neg (by rw [hlen]; simp), hlen, listSwap_mid]
  have hgx : ((u ++ x :: v) ++ [y]).getD u.length 0 = x := by
    rw [List.getD_append _ _ _ _ (by simp),
      List.getD_append_right _ _ _ _ (le_refl _), Nat.sub_self]
    rfl
  rw [hgx]
  show deletePop ⟨P, s, (u ++ x :: v) ++ [y], pollReregister R x (s + u.length)⟩ = _
  unfold deletePop
  rw [List.getLast?_concat, List.dropLast_concat]

theorem delete_spec_last (P : List DevPath) (s : Nat) (R : List (DevPath × Nat))
    (u : List DevPath) (y : DevPath) :
    InputDevicePool.delete ⟨P, s, u ++ [y], R⟩ u.length =
      ⟨P.filter (fun q => q ≠ y), s, u, pollDeregister R y⟩ := by
  unfold InputDevicePool.delete
  have hlen : (u ++ [y]).length - 1 = u.length := by simp
  rw [if_pos (by rw [hlen])]
  unfold deletePop
  rw [List.getLast?_concat, List.dropLast_concat]

/-! ### `insert` -/

theorem insertE_mem (p : InputDevicePool) (d : DevPath) (b : Bool)
    (hd : d ∈ p.pathes) : p.insertE d b = (p, true) := by
  unfold InputDevicePool.insertE
  rw [if_pos hd]

theorem insert_mem (p : InputDevicePool) (d : DevPath) (hd : d ∈ p.pathes) :
    p.insert d = p := by
  unfold InputDevicePool.insert
  rw [insertE_mem p d true hd]

theorem insert_not_mem (p : InputDevicePool) (d : DevPath) (hd : d ∉ p.pathes) :
    p.insert d =
      { p with pathes := d :: p.pathes, devices := p.devices ++ [d],
               registry := p.registry ++ [(d, p.token_start + p.devices.length)] } := by
  unfold InputDevicePool.insert InputDevicePool.insertE
  rw [if_neg hd]
  rfl

theorem insertE_not_mem_fail (p : InputDevicePool) (d : DevPath)
    (hd : d ∉ p.pathes) :
    p.insertE d false =
      ({ p with pathes := d :: p.pathes, devices := p.devices ++ [d] }, false) := by
  unfold InputDevicePool.insertE
  rw [if_neg hd]
  rfl

theorem insert_all_spec (ds : List DevPath) (p : InputDevicePool)
    (hnd : ds.Nodup) (hdisj : ∀ d ∈ ds, d ∉ p.pathes) :
    (p.insert_all ds).devices = p.devices ++ ds ∧
    (p.insert_all ds).token_start = p.token_start ∧
    (p.insert_all ds).registry =
      p.registry ++ regFrom (p.token_start + p.devices.length) ds ∧
    (∀ e, e ∈ (p.insert_all ds).pathes ↔ e ∈ ds ∨ e ∈ p.pathes) := by
  induction ds generalizing p with
  | nil => simp [InputDevicePool.insert_all, regFrom]
  | cons d rest ih =>
    have hd : d ∉ p.pathes := hdisj d (by simp)
    have hstep : p.insert_all (d :: rest) = (p.insert d).insert_all rest := rfl
    rw [hstep, insert_not_mem p d hd]
    have hnd' : rest.Nodup := (List.nodup_cons.1 hnd).2
    have hdisj' : ∀ e ∈ rest, e ∉ d :: p.pathes := by
      intro e he
      simp only [List.mem_cons, not_or]
      exact ⟨fun h => (List.nodup_cons.1 hnd).1 (h ▸ he), hdisj e (by simp [he])⟩
    obtain ⟨h1, h2, h3, h4⟩ :=
      ih { p with pathes := d :: p.pathes, devices := p.devices ++ [d],
                  registry := p.registry ++ [(d, p.token_start + p.devices.length)] }
        hnd' hdisj'
    refine ⟨?_, by simpa using h2, ?_, ?_⟩
    · rw [h1]
      simp
    · rw [h3]
      simp only [List.length_append, List.length_cons, List.length_nil,
        List.append_assoc, List.singleton_append]
      rw [show p.token_start + (p.devices.length + 1)
            = p.token_start + p.devices.length + 1 by omega]
      rfl
    · intro e
      rw [h4 e]
      simp only [List.mem_cons]
      tauto

/-! ### Registry bookkeeping under rebinding and deregistration -/

theorem pollReregister_append (a b : List (DevPath × Nat)) (d : DevPath) (t : Nat) :
    pollReregister (a ++ b) d t = pollReregister a d t ++ pollReregister b d t := by
  simp [pollReregister]

theorem pollDeregister_append (a b : List (DevPath × Nat)) (d : DevPath) :
    pollDeregister (a ++ b) d = pollDeregister a d ++ pollDeregister b d := by
  simp [pollDeregister]

theorem pollReregister_cons_ne (e : DevPath × Nat) (reg : List (DevPath × Nat))
    (d : DevPath) (t : Nat) (h : e.1 ≠ d) :
    pollReregister (e :: reg) d t = e :: pollReregister reg d t := by
  simp [pollReregister, h]

theorem pollReregister_cons_eq (e : DevPath × Nat) (reg : List (DevPath × Nat))
    (d : DevPath) (t : Nat) (h : e.1 = d) :
    pollReregister (e :: reg) d t = (d, t) :: pollReregister reg d t := by
  simp [pollReregister, h]

theorem pollDeregister_cons_ne (e : DevPath × Nat) (reg : List (DevPath × Nat))
    (d : DevPath) (h : e.1 ≠ d) :
    pollDeregister (e :: reg) d = e :: pollDeregister reg d := by
  simp [pollDeregister, h]

theorem pollDeregister_cons_eq (e : DevPath × Nat) (reg : List (DevPath × Nat))
    (d : DevPath) (h : e.1 = d) :
    pollDeregister (e :: reg) d = pollDeregister reg d := by
  simp [pollDeregister, h]

theorem pollReregister_nil (d : DevPath) (t : Nat) : pollReregister [] d t = [] := rfl

theorem pollDeregister_nil (d : DevPath) : pollDeregister [] d = [] := rfl

theorem pollReregister_regFrom (t : Nat) (l : List DevPath) (d : DevPath)
    (t' : Nat) (hd : d ∉ l) : pollReregister (regFrom t l) d t' = regFrom t l :=
  pollReregister_not_mem _ _ _ fun e he h => hd (h ▸ regFrom_fst_mem t l e he)

theorem pollDeregister_regFrom (t : Nat) (l : List DevPath) (d : DevPath)
    (hd : d ∉ l) : pollDeregister (regFrom t l) d = regFrom t l :=
  pollDeregister_not_mem _ _ fun e he h => hd (h ▸ regFrom_fst_mem t l e he)

/-- The registry after the swap-remove of `y` at position `u.length` from a
device list `(u ++ y :: v) ++ [x]`: the relocated `x` is rebound to the
doomed token and `y`'s registration disappears. -/
theorem registry_rebind (s : Nat) (u v : List DevPath) (y x : DevPath)
    (hxu : x ∉ u) (hxy : x ≠ y) (hxv : x ∉ v) (hyu : y ∉ u) (hyv : y ∉ v) :
    pollDeregister
        (pollReregister (regFrom s ((u ++ y :: v) ++ [x])) x (s + u.length)) y =
      (regFrom s u ++ regFrom (s + u.length + 1) v) ++ [(x, s + u.length)] := by
  have hshape : regFrom s ((u ++ y :: v) ++ [x]) =
      (regFrom s u ++ (y, s + u.length) :: regFrom (s + u.length + 1) v)
        ++ [(x, s + (u.length + (v.length + 1)))] := by
    rw [regFrom_append, regFrom_append]
    simp [regFrom, Nat.add_assoc]
  rw [hshape, pollReregister_append, pollReregister_append,
    pollReregister_regFrom _ _ _ _ hxu,
    pollReregister_cons_ne _ _ _ _ (fun h => hxy h.symm),
    pollReregister_regFrom _ _ _ _ hxv,
    pollReregister_cons_eq _ _ _ _ rfl, pollReregister_nil,
    pollDeregister_append, pollDeregister_append,
    pollDeregister_regFrom _ _ _ hyu,
    pollDeregister_cons_eq _ _ _ rfl,
    pollDeregister_regFrom _ _ _ hyv,
    pollDeregister_cons_ne _ _ _ hxy, pollDeregister_nil]

/-! ### Splitting a device list at the doomed index -/

theorem exists_decomp_mid (ds : List DevPath) (i : Nat) (hi : i < ds.length)
    (hne : i ≠ ds.length - 1) :
    ∃ u v y x, ds = (u ++ y :: v) ++ [x] ∧ u.length = i := by
  have hrest : ds.drop i ≠ [] := by
    intro h
    have := congrArg List.length h
    simp only [List.length_drop, List.length_nil] at this
    omega
  obtain ⟨y, rest, hyr⟩ := List.exists_cons_of_ne_nil hrest
  have hrlen : rest.length = ds.length - i - 1 := by
    have := congrArg List.length hyr
    simp only [List.length_drop, List.length_cons] at this
    omega
  rcases List.eq_nil_or_concat rest with hnil | ⟨v, x, hvx⟩
  · rw [hnil] at hrlen
    simp only [List.length_nil] at hrlen
    omega
  · refine ⟨ds.take i, v, y, x, ?_, by simp [List.length_take]; omega⟩
    conv_lhs => rw [← List.take_append_drop i ds]
    rw [hyr, hvx]
    simp

theorem exists_decomp_last (ds : List DevPath) (i : Nat) (hi : i < ds.length)
    (heq : i = ds.length - 1) :
    ∃ u y, ds = u ++ [y] ∧ u.length = i := by
  have hrest : ds.drop i ≠ [] := by
    intro h
    have := congrArg List.length h
    simp only [List.length_drop, List.length_nil] at this
    omega
  obtain ⟨y, rest, hyr⟩ := List.exists_cons_of_ne_nil hrest
  have hrlen : rest.length = ds.length - i - 1 := by
    have := congrArg List.length hyr
    simp only [List.length_drop, List.length_cons] at this
    omega
  have hrnil : rest = [] := by
    have : rest.length = 0 := by omega
    exact List.length_eq_zero.1 this
  refine ⟨ds.take i, y, ?_, by simp [List.length_take]; omega⟩
  conv_lhs => rw [← List.take_append_drop i ds]
  rw [hyr, hrnil]

/-! ### Preservation of the pool invariant -/

theorem Inv_new (s : Nat) : (InputDevicePool.new s).Inv := by
  refine ⟨List.nodup_nil, fun d => Iff.rfl, ?_⟩
  simp [InputDevicePool.new, regFrom]

theorem Inv_insert (p : InputDevicePool) (d : DevPath) (h : p.Inv) :
    (p.insert d).Inv := by
  obtain ⟨hnd, hP, hR⟩ := h
  by_cases hd : d ∈ p.pathes
  · rw [insert_mem p d hd]
    exact ⟨hnd, hP, hR⟩
  · rw [insert_not_mem p d hd]
    have hdd : d ∉ p.devices := fun hdev => hd ((hP d).2 hdev)
    refine ⟨?_, ?_, ?_⟩
    · exact (List.perm_append_singleton d p.devices).symm.nodup
        (List.nodup_cons.2 ⟨hdd, hnd⟩)
    · intro e
      simp only [List.mem_cons, List.mem_append, List.mem_singleton, hP e]
      tauto
    · show (p.registry ++ [(d, p.token_start + p.devices.length)]).Perm
        (regFrom p.token_start (p.devices ++ [d]))
      rw [regFrom_append]
      exact hR.append_right _

theorem Inv_delete (p : InputDevicePool) (i : Nat) (hi : i < p.devices.length)
    (h : p.Inv) : (p.delete i).Inv := by
  obtain ⟨P, s, ds, R⟩ := p
  obtain ⟨hnd, hP, hR⟩ := h
  simp only at hnd hP hR hi
  by_cases hlast : i = ds.length - 1
  · obtain ⟨u, y, hds, hu⟩ := exists_decomp_last ds i hi hlast
    subst hds
    rw [← hu, delete_spec_last]
    rw [List.nodup_append] at hnd
    obtain ⟨hund, -, hdisj⟩ := hnd
    have hyu : y ∉ u := fun hy => hdisj hy (by simp)
    refine ⟨hund, ?_, ?_⟩
    · intro e
      simp only [List.mem_filter, decide_eq_true_eq, hP e, List.mem_append,
        List.mem_singleton]
      constructor
      · rintro ⟨he | rfl, hne⟩
        · exact he
        · exact absurd rfl hne
      · intro he
        exact ⟨Or.inl he, fun hey => hyu (hey ▸ he)⟩
    · show (pollDeregister R y).Perm (regFrom s u)
      have h2 : pollDeregister (regFrom s (u ++ [y])) y = regFrom s u := by
        rw [regFrom_append, pollDeregister_append, pollDeregister_regFrom _ _ _ hyu]
        rw [show regFrom (s + u.length) [y] = [(y, s + u.length)] from rfl]
        rw [pollDeregister_cons_eq _ _ _ rfl, pollDeregister_nil, List.append_nil]
      exact h2 ▸ List.Perm.filter _ hR
  · obtain ⟨u, v, y, x, hds, hu⟩ := exists_decomp_mid ds i hi hlast
    subst hds
    rw [← hu, delete_spec_mid]
    rw [List.nodup_append] at hnd
    obtain ⟨hmid, -, hdisjx⟩ := hnd
    have hx : x ∉ u ++ y :: v := fun hxm => hdisjx hxm (by simp)
    rw [List.nodup_append] at hmid
    obtain ⟨hund, hyvnd, hdisju⟩ := hmid
    obtain ⟨hyv, hvnd⟩ := List.nodup_cons.1 hyvnd
    have hyu : y ∉ u := fun hy => hdisju hy (by simp)
    simp only [List.mem_append, List.mem_cons, not_or] at hx
    obtain ⟨hxu, hxy, hxv⟩ := hx
    refine ⟨?_, ?_, ?_⟩
    · show (u ++ x :: v).Nodup
      rw [List.nodup_append, List.nodup_cons]
      refine ⟨hund, ⟨hxv, hvnd⟩, ?_⟩
      intro a ha hav
      rcases List.mem_cons.1 hav with rfl | hav
      · exact hxu ha
      · exact hdisju ha (by simp [hav])
    · intro e
      simp only [List.mem_filter, decide_eq_true_eq, hP e, List.mem_append,
        List.mem_cons, List.not_mem_nil, or_false]
      constructor
      · rintro ⟨(he | rfl | he) | rfl, hne⟩
        · exact Or.inl he
        · exact absurd rfl hne
        · exact Or.inr (Or.inr he)
        · exact Or.inr (Or.inl rfl)
      · rintro (he | rfl | he)
        · exact ⟨Or.inl (Or.inl he), fun hey => hyu (hey ▸ he)⟩
        · exact ⟨Or.inr rfl, fun hey => hxy hey⟩
        · exact ⟨Or.inl (Or.inr (Or.inr he)), fun hey => hyv (hey ▸ he)⟩
    · show (pollDeregister (pollReregister R x (s + u.length)) y).Perm
        (regFrom s (u ++ x :: v))
      have step1 : (pollReregister R x (s + u.length)).Perm
          (pollReregister (regFrom s ((u ++ y :: v) ++ [x])) x (s + u.length)) :=
        List.Perm.map _ hR
      have step2 : (pollDeregister (pollReregister R x (s + u.length)) y).Perm
          (pollDeregister
            (pollReregister (regFrom s ((u ++ y :: v) ++ [x])) x (s + u.length)) y) :=
        List.Perm.filter _ step1
      rw [registry_rebind s u v y x hxu hxy hxv hyu hyv] at step2
      refine step2.trans ?_
      rw [regFrom_append]
      rw [show regFrom (s + u.length) (x :: v)
            = (x, s + u.length) :: regFrom (s + u.length + 1) v from rfl]
      rw [List.append_assoc]
      exact List.Perm.append_left _ (List.perm_append_singleton _ _)

theorem Inv_delete_from_path (p : InputDevicePool) (d : DevPath) (h : p.Inv) :
    (p.delete_from_path d).Inv := by
  unfold InputDevicePool.delete_from_path InputDevicePool.find_path
  cases hf : findIdxFrom d p.devices with
  | none => exact h
  | some i => exact Inv_delete p i (findIdxFrom_bound d _ i hf).1 h

theorem Inv_apply_ops (p : InputDevicePool) (ops : List PoolOp) (h : p.Inv) :
    (p.apply_ops ops).Inv := by
  induction ops generalizing p with
  | nil => exact h
  | cons op rest ih =>
    cases op with
    | ins d => exact ih _ (Inv_insert p d h)
    | del d => exact ih _ (Inv_delete_from_path p d h)

/-! ### Element bookkeeping for the specific insert-then-remove scenario -/

theorem getD_take (l : List DevPath) (i j : Nat) (hj : j < i)
    (hjl : j < l.length) : (l.take i).getD j 0 = l.getD j 0 := by
  rw [List.getD_eq_getElem _ _ (by simp only [List.length_take]; omega),
    List.getD_eq_getElem _ _ hjl]
  exact List.getElem_take l

theorem getD_at_len (u w : List DevPath) (a : DevPath) :
    (u ++ a :: w).getD u.length 0 = a := by
  rw [List.getD_append_right _ _ _ _ (le_refl _), Nat.sub_self]
  rfl

theorem getD_after_len (u w : List DevPath) (a : DevPath) (j : Nat)
    (hj : u.length < j) :
    (u ++ a :: w).getD j 0 = w.getD (j - u.length - 1) 0 := by
  rw [List.getD_append_right _ _ _ _ (by omega)]
  rw [show j - u.length = (j - u.length - 1) + 1 by omega, List.getD_cons_succ]
  simp

theorem insert_all_new (s : Nat) (ps : List DevPath) (hnd : ps.Nodup) :
    ∃ P0, (∀ e, e ∈ P0 ↔ e ∈ ps) ∧
      (InputDevicePool.new s).insert_all ps = ⟨P0, s, ps, regFrom s ps⟩ := by
  obtain ⟨h1, h2, h3, h4⟩ :=
    insert_all_spec ps (InputDevicePool.new s) hnd (by simp [InputDevicePool.new])
  refine ⟨((InputDevicePool.new s).insert_all ps).pathes, ?_, ?_⟩
  · intro e
    rw [h4 e]
    simp [InputDevicePool.new]
  · have hgen : ∀ q : InputDevicePool, q.token_start = s → q.devices = ps →
        q.registry = regFrom s ps → q = ⟨q.pathes, s, ps, regFrom s ps⟩ := by
      intro q ha hb hc
      cases q
      simp_all
    exact hgen _ (by simpa [InputDevicePool.new] using h2)
      (by simpa [InputDevicePool.new] using h1)
      (by simpa [InputDevicePool.new] using h3)

theorem scenario_state (s : Nat) (ps : List DevPath) (i : Nat)
    (hnd : ps.Nodup) (hi : i < ps.length) :
    (scenarioPool s ps i).token_start = s ∧
    (scenarioPool s ps i).devices.length = ps.length - 1 ∧
    (scenarioPool s ps i).registry.length = ps.length - 1 ∧
    (∀ j, j < ps.length - 1 →
      ((scenarioPool s ps i).devices.getD j 0, s + j) ∈
        (scenarioPool s ps i).registry) ∧
    (∀ j, j < ps.length → j ≠ i → ∃ jn, jn < ps.length - 1 ∧
      (scenarioPool s ps i).devices.getD jn 0 = ps.getD j 0) := by
  obtain ⟨P0, hP0, hpool⟩ := insert_all_new s ps hnd
  have hq : scenarioPool s ps i
      = InputDevicePool.delete ⟨P0, s, ps, regFrom s ps⟩ i := by
    unfold scenarioPool
    rw [hpool]
    unfold InputDevicePool.delete_from_path InputDevicePool.find_path
    rw [show (⟨P0, s, ps, regFrom s ps⟩ : InputDevicePool).devices = ps from rfl,
      findIdxFrom_nodup ps i hi hnd]
  rw [hq]
  by_cases hlast : i = ps.length - 1
  · obtain ⟨u, y, hds, hu⟩ := exists_decomp_last ps i hi hlast
    subst hds
    have hyu : y ∉ u := by
      rw [List.nodup_append] at hnd
      exact fun hy => hnd.2.2 hy (by simp)
    rw [← hu, delete_spec_last]
    have hreg : pollDeregister (regFrom s (u ++ [y])) y = regFrom s u := by
      rw [regFrom_append, pollDeregister_append, pollDeregister_regFrom _ _ _ hyu,
        show regFrom (s + u.length) [y] = [(y, s + u.length)] from rfl,
        pollDeregister_cons_eq _ _ _ rfl, pollDeregister_nil, List.append_nil]
    have hulen : u.length = (u ++ [y]).length - 1 := by simp
    refine ⟨rfl, hulen, ?_, ?_, ?_⟩
    · show (pollDeregister (regFrom s (u ++ [y])) y).length = (u ++ [y]).length - 1
      rw [hreg, regFrom_length]
      exact hulen
    · intro j hj
      show (u.getD j 0, s + j) ∈ pollDeregister (regFrom s (u ++ [y])) y
      rw [hreg]
      exact regFrom_mem s u j (by simp at hj ⊢; omega)
    · intro j hj hji
      have hju : j < u.length := by
        simp only [List.length_append, List.length_cons, List.length_nil] at hj
        omega
      refine ⟨j, by simp only [List.length_append, List.length_cons,
        List.length_nil]; omega, ?_⟩
      show u.getD j 0 = (u ++ [y]).getD j 0
      rw [List.getD_append _ _ _ _ hju]
  · obtain ⟨u, v, y, x, hds, hu⟩ := exists_decomp_mid ps i hi hlast
    subst hds
    have hlen : ((u ++ y :: v) ++ [x]).length = u.length + v.length + 2 := by
      simp only [List.length_append, List.length_cons, List.length_nil]
      omega
    rw [List.nodup_append] at hnd
    obtain ⟨hmid, -, hdisjx⟩ := hnd
    have hx : x ∉ u ++ y :: v := fun hxm => hdisjx hxm (by simp)
    rw [List.nodup_append] at hmid
    obtain ⟨hund, hyvnd, hdisju⟩ := hmid
    obtain ⟨hyv, hvnd⟩ := List.nodup_cons.1 hyvnd
    have hyu : y ∉ u := fun hy => hdisju hy (by simp)
    simp only [List.mem_append, List.mem_cons, not_or] at hx
    obtain ⟨hxu, hxy, hxv⟩ := hx
    rw [← hu, delete_spec_mid, registry_rebind s u v y x hxu hxy hxv hyu hyv]
    have hdevlen : (u ++ x :: v).length = u.length + v.length + 1 := by
      simp only [List.length_append, List.length_cons]
      omega
    refine ⟨rfl, ?_, ?_, ?_, ?_⟩
    · show (u ++ x :: v).length = ((u ++ y :: v) ++ [x]).length - 1
      rw [hdevlen, hlen]
      omega
    · show ((regFrom s u ++ regFrom (s + u.length + 1) v)
          ++ [(x, s + u.length)]).length = ((u ++ y :: v) ++ [x]).length - 1
      simp only [List.length_append, regFrom_length, List.length_cons,
        List.length_nil, hlen]
      omega
    · intro j hj
      rw [hlen] at hj
      show ((u ++ x :: v).getD j 0, s + j) ∈
        (regFrom s u ++ regFrom (s + u.length + 1) v) ++ [(x, s + u.length)]
      rcases Nat.lt_trichotomy j u.length with hlt | heq | hgt
      · rw [List.getD_append _ _ _ _ hlt]
        exact List.mem_append_left _ (List.mem_append_left _ (regFrom_mem s u j hlt))
      · subst heq
        rw [getD_at_len]
        exact List.mem_append_right _ (by simp)
      · rw [getD_after_len _ _ _ _ hgt]
        have hbound : j - u.length - 1 < v.length := by omega
        have hmem := regFrom_mem (s + u.length + 1) v (j - u.length - 1) hbound
        rw [show s + u.length + 1 + (j - u.length - 1) = s + j by omega] at hmem
        exact List.mem_append_left _ (List.mem_append_right _ hmem)
    · intro j hj hji
      rw [hlen] at hj
      rcases Nat.lt_trichotomy j u.length with hlt | heq | hgt
      · refine ⟨j, by rw [hlen]; omega, ?_⟩
        show (u ++ x :: v).getD j 0 = ((u ++ y :: v) ++ [x]).getD j 0
        rw [List.getD_append _ _ _ _ hlt, List.getD_append _ _ _ _ (by simp; omega),
          List.getD_append _ _ _ _ hlt]
      · exact absurd heq hji
      · by_cases hlastj : j = u.length + v.length + 1
        · refine ⟨u.length, by rw [hlen]; omega, ?_⟩
          show (u ++ x :: v).getD u.length 0 = ((u ++ y :: v) ++ [x]).getD j 0
          rw [getD_at_len, hlastj,
            List.getD_append_right _ _ _ _
              (by simp only [List.length_append, List.length_cons]; omega),
            show u.length + v.length + 1 - (u ++ y :: v).length = 0 by
              simp only [List.length_append, List.length_cons]
              omega]
          rfl
        · refine ⟨j, by rw [hlen]; omega, ?_⟩
          show (u ++ x :: v).getD j 0 = ((u ++ y :: v) ++ [x]).getD j 0
          rw [getD_after_len _ _ _ _ hgt,
            List.getD_append _ _ _ _ (by simp; omega),
            getD_after_len _ _ _ _ hgt]

theorem token_start_deletePop (p : InputDevicePool) :
    (deletePop p).token_start = p.token_start := by
  unfold deletePop
  cases p.devices.getLast? <;> rfl

theorem token_start_delete (p : InputDevicePool) (i : Nat) :
    (p.delete i).token_start = p.token_start := by
  unfold InputDevicePool.delete
  rw [token_start_deletePop]
  split <;> rfl

theorem token_start_delete_from_path (p : InputDevicePool) (d : DevPath) :
    (p.delete_from_path d).token_start = p.token_start := by
  unfold InputDevicePool.delete_from_path
  cases p.find_path d with
  | none => rfl
  | some i => exact token_start_delete p i

theorem token_start_insert (p : InputDevicePool) (d : DevPath) :
    (p.insert d).token_start = p.token_start := by
  by_cases hd : d ∈ p.pathes
  · rw [insert_mem p d hd]
  · rw [insert_not_mem p d hd]

theorem token_start_apply_ops (p : InputDevicePool) (ops : List PoolOp) :
    (p.apply_ops ops).token_start = p.token_start := by
  induction ops generalizing p with
  | nil => rfl
  | cons op rest ih =>
    cases op with
    | ins d =>
      exact (ih (p.insert d)).trans (token_start_insert p d)
    | del d =>
      exact (ih (p.delete_from_path d)).trans (token_start_delete_from_path p d)

theorem get_mut_getD (p : InputDevicePool) (j : Nat) (hj : j < p.devices.length)
    (hsz : p.token_start + p.devices.length ≤ 2 ^ 64) :
    p.get_mut (p.token_start + j) = some (p.devices.getD j 0) := by
  rw [InputDevicePool.get_mut_in_range p j hj hsz, List.getElem?_eq_getElem hj,
    List.getD_eq_getElem _ _ hj]

/-- C1: starting from an empty pool, after any sequence of hot-plug
operations the tokens registered with the multiplexer are exactly the
contiguous range `[token_start, token_start + len)`; in particular,
inserting `N` devices with distinct paths and removing any single one by
path (the removal going through the swap / rebind / pop-and-deregister
`delete`) leaves `N - 1` devices, the valid tokens are exactly
`{token_start, …, token_start + N - 2}` with no gaps, every remaining
device is reachable through `get_mut` under some valid token, and each
surviving device is registered under its positional token. -/
theorem c1_token_range_after_insert_delete (s : Nat) :
    (∀ ops : List PoolOp,
      ((((InputDevicePool.new s).apply_ops ops).registry.map Prod.snd).Perm
        (List.range' s (((InputDevicePool.new s).apply_ops ops).devices.length)))) ∧
    (∀ ps : List DevPath, ps.Nodup → ∀ i, i < ps.length →
      s + ps.length ≤ 2 ^ 64 →
      (scenarioPool s ps i).devices.length = ps.length - 1 ∧
      (∀ tok, tok < 2 ^ 64 →
        ((scenarioPool s ps i).contains tok = true ↔
          s ≤ tok ∧ tok < s + (ps.length - 1))) ∧
      (∀ j, j < ps.length → j ≠ i →
        ∃ tok, (scenarioPool s ps i).contains tok = true ∧
          (scenarioPool s ps i).get_mut tok = some (ps.getD j 0)) ∧
      (scenarioPool s ps i).registry.length = (scenarioPool s ps i).devices.length ∧
      (∀ j, j < (scenarioPool s ps i).devices.length →
        ((scenarioPool s ps i).devices.getD j 0, s + j) ∈
          (scenarioPool s ps i).registry)) := by
  constructor
  · intro ops
    obtain ⟨-, -, hR⟩ := Inv_apply_ops (InputDevicePool.new s) ops (Inv_new s)
    have hts : ((InputDevicePool.new s).apply_ops ops).token_start = s :=
      (token_start_apply_ops (InputDevicePool.new s) ops).trans rfl
    have h1 := List.Perm.map Prod.snd hR
    rw [regFrom_map_snd, hts] at h1
    exact h1
  · intro ps hnd i hi hsz
    obtain ⟨hts, hlen, hrlen, hmem, hfind⟩ := scenario_state s ps i hnd hi
    have hq64 : (scenarioPool s ps i).token_start
        + (scenarioPool s ps i).devices.length ≤ 2 ^ 64 := by
      rw [hts, hlen]
      omega
    refine ⟨hlen, ?_, ?_, ?_, ?_⟩
    · intro tok htok
      rw [InputDevicePool.contains_iff _ tok htok (by rw [hts]; omega) hq64,
        hts, hlen]
    · intro j hj hji
      obtain ⟨jn, hjn, hgd⟩ := hfind j hj hji
      refine ⟨s + jn, ?_, ?_⟩
      · rw [InputDevicePool.contains_iff _ _ (by omega) (by rw [hts]; omega) hq64,
          hts, hlen]
        omega
      · have hg := get_mut_getD (scenarioPool s ps i) jn (by rw [hlen]; omega) hq64
        rw [hts] at hg
        rw [hg, hgd]
    · rw [hrlen, hlen]
    · intro j hj
      rw [hlen] at hj
      exact hmem j hj

theorem c1_token_range_witness :
    [4, 6, 8].Nodup ∧ (1 : Nat) < [4, 6, 8].length ∧
    1 + [4, 6, 8].length ≤ 2 ^ 64 ∧
    ((((InputDevicePool.new 1).apply_ops [PoolOp.ins 4, PoolOp.del 4]).registry.map
        Prod.snd).Perm
      (List.range' 1
        (((InputDevicePool.new 1).apply_ops [PoolOp.ins 4, PoolOp.del 4]).devices.length))) ∧
    (scenarioPool 1 [4, 6, 8] 1).devices.length = [4, 6, 8].length - 1 :=
  ⟨by decide, by decide, by decide,
    (c1_token_range_after_insert_delete 1).1 [PoolOp.ins 4, PoolOp.del 4],
    ((c1_token_range_after_insert_delete 1).2 [4, 6, 8] (by decide) 1 (by decide)
      (by decide)).1⟩

/-! ### Path uniqueness (C5) -/

theorem PathsUnique_delete (p : InputDevicePool) (i : Nat)
    (hi : i < p.devices.length) (h : p.PathsUnique) : (p.delete i).PathsUnique := by
  obtain ⟨P, s, ds, R⟩ := p
  obtain ⟨hnd, hP⟩ := h
  simp only at hnd hP hi
  by_cases hlast : i = ds.length - 1
  · obtain ⟨u, y, hds, hu⟩ := exists_decomp_last ds i hi hlast
    subst hds
    rw [← hu, delete_spec_last]
    rw [List.nodup_append] at hnd
    obtain ⟨hund, -, hdisj⟩ := hnd
    have hyu : y ∉ u := fun hy => hdisj hy (by simp)
    refine ⟨hund, ?_⟩
    intro e
    simp only [List.mem_filter, decide_eq_true_eq, hP e, List.mem_append,
      List.mem_singleton]
    constructor
    · rintro ⟨he | rfl, hne⟩
      · exact he
      · exact absurd rfl hne
    · intro he
      exact ⟨Or.inl he, fun hey => hyu (hey ▸ he)⟩
  · obtain ⟨u, v, y, x, hds, hu⟩ := exists_decomp_mid ds i hi hlast
    subst hds
    rw [← hu, delete_spec_mid]
    rw [List.nodup_append] at hnd
    obtain ⟨hmid, -, hdisjx⟩ := hnd
    have hx : x ∉ u ++ y :: v := fun hxm => hdisjx hxm (by simp)
    rw [List.nodup_append] at hmid
    obtain ⟨hund, hyvnd, hdisju⟩ := hmid
    obtain ⟨hyv, hvnd⟩ := List.nodup_cons.1 hyvnd
    have hyu : y ∉ u := fun hy => hdisju hy (by simp)
    simp only [List.mem_append, List.mem_cons, not_or] at hx
    obtain ⟨hxu, hxy, hxv⟩ := hx
    refine ⟨?_, ?_⟩
    · show (u ++ x :: v).Nodup
      rw [List.nodup_append, List.nodup_cons]
      refine ⟨hund, ⟨hxv, hvnd⟩, ?_⟩
      intro a ha hav
      rcases List.mem_cons.1 hav with rfl | hav
      · exact hxu ha
      · exact hdisju ha (by simp [hav])
    · intro e
      simp only [List.mem_filter, decide_eq_true_eq, hP e, List.mem_append,
        List.mem_cons, List.not_mem_nil, or_false]
      constructor
      · rintro ⟨(he | rfl | he) | rfl, hne⟩
        · exact Or.inl he
        · exact absurd rfl hne
        · exact Or.inr (Or.inr he)
        · exact Or.inr (Or.inl rfl)
      · rintro (he | rfl | he)
        · exact ⟨Or.inl (Or.inl he), fun hey => hyu (hey ▸ he)⟩
        · exact ⟨Or.inr rfl, fun hey => hxy hey⟩
        · exact ⟨Or.inl (Or.inr (Or.inr he)), fun hey => hyv (hey ▸ he)⟩

/-- C5 (counterexample): the binary variant's `insert_from_path`
(`src/src/input_device_pool.rs` lines 39-53) has no path set and no
duplicate check: inserting an already-present path pushes a second handle
with the same path, so neither the no-op clause nor the uniqueness
invariant of the claim holds there. -/
theorem c5_counterexample_binary_variant_duplicate :
    (5 ∈ (⟨[], 1, [5], [(5, 1)]⟩ : InputDevicePool).devices) ∧
    (⟨[], 1, [5], [(5, 1)]⟩ : InputDevicePool).devices.Nodup ∧
    ((⟨[], 1, [5], [(5, 1)]⟩ : InputDevicePool).insert_from_path 5).devices
      = [5, 5] ∧
    ¬ ((⟨[], 1, [5], [(5, 1)]⟩ : InputDevicePool).insert_from_path
        5).devices.Nodup :=
  ⟨by decide, by decide, rfl, by decide⟩

/-- C5 (amended): in the library variant a device whose path is already
present makes `insert` a no-op returning `Ok(())` regardless of whether
registration would succeed, and path-uniqueness is preserved by every
`insert` and every `delete_from_path`; in the binary variant
`insert_from_path` performs no duplicate check — it unconditionally
appends the device, so inserting an already-present path leaves the pool
with two handles of the same path. -/
theorem c5_amended_path_uniqueness (p : InputDevicePool) :
    (∀ d b, d ∈ p.pathes → p.insertE d b = (p, true)) ∧
    (∀ d, p.PathsUnique → (p.insert d).PathsUnique) ∧
    (∀ d, p.PathsUnique → (p.delete_from_path d).PathsUnique) ∧
    (∀ d, (p.insert_from_path d).devices = p.devices ++ [d]) ∧
    (∀ d, d ∈ p.devices → ¬ (p.insert_from_path d).devices.Nodup) := by
  refine ⟨fun d b hd => insertE_mem p d b hd, fun d h => ?_, fun d h => ?_,
    fun d => rfl, fun d hd hnd => ?_⟩
  · by_cases hd : d ∈ p.pathes
    · rw [insert_mem p d hd]
      exact h
    · obtain ⟨hnd, hP⟩ := h
      rw [insert_not_mem p d hd]
      have hdd : d ∉ p.devices := fun hdev => hd ((hP d).2 hdev)
      refine ⟨?_, ?_⟩
      · exact (List.perm_append_singleton d p.devices).symm.nodup
          (List.nodup_cons.2 ⟨hdd, hnd⟩)
      · intro e
        simp only [List.mem_cons, List.mem_append, List.mem_singleton, hP e]
        tauto
  · unfold InputDevicePool.delete_from_path InputDevicePool.find_path
    cases hf : findIdxFrom d p.devices with
    | none => exact h
    | some i => exact PathsUnique_delete p i (findIdxFrom_bound d _ i hf).1 h
  · rw [show (p.insert_from_path d).devices = p.devices ++ [d] from rfl,
      List.nodup_append] at hnd
    exact hnd.2.2 hd (by simp)

theorem c5_amended_path_uniqueness_witness :
    (3 ∈ (⟨[3], 1, [3], [(3, 1)]⟩ : InputDevicePool).pathes) ∧
    (⟨[3], 1, [3], [(3, 1)]⟩ : InputDevicePool).insertE 3 false
      = (⟨[3], 1, [3], [(3, 1)]⟩, true) ∧
    ((⟨[3], 1, [3], [(3, 1)]⟩ : InputDevicePool).insert 5).PathsUnique ∧
    (3 ∈ (⟨[3], 1, [3], [(3, 1)]⟩ : InputDevicePool).devices) ∧
    ¬ ((⟨[3], 1, [3], [(3, 1)]⟩ : InputDevicePool).insert_from_path
        3).devices.Nodup :=
  ⟨by decide,
    (c5_amended_path_uniqueness ⟨[3], 1, [3], [(3, 1)]⟩).1 3 false (by decide),
    (c5_amended_path_uniqueness ⟨[3], 1, [3], [(3, 1)]⟩).2.1 5
      ⟨by decide, fun d => Iff.rfl⟩,
    by decide,
    (c5_amended_path_uniqueness ⟨[3], 1, [3], [(3, 1)]⟩).2.2.2.2 3 (by decide)⟩

/-- C9: `contains` is a total bounds check: for any pool and token within
`usize` range it returns `true` exactly when the token lies in
`[token_start, token_start + devices.len())`, and in particular returns
`false` for every token below `token_start` (such as the reserved hot-plug
token `0` when `token_start = 1`). -/
theorem c9_contains_bounds_check (p : InputDevicePool) (tok : Nat)
    (htok : tok < 2 ^ 64) (hts : p.token_start < 2 ^ 64)
    (hsz : p.token_start + p.devices.length ≤ 2 ^ 64) :
    (p.contains tok = true ↔
      p.token_start ≤ tok ∧ tok < p.token_start + p.devices.length) ∧
    (tok < p.token_start → p.contains tok = false) := by
  have h := InputDevicePool.contains_iff p tok htok hts hsz
  refine ⟨h, fun hlt => ?_⟩
  cases hc : p.contains tok
  · rfl
  · exact absurd (h.1 hc).1 (by omega)

theorem c9_contains_bounds_check_witness :
    (0 : Nat) < 2 ^ 64 ∧
    (⟨[7, 8], 1, [7, 8], [(7, 1), (8, 2)]⟩ : InputDevicePool).token_start < 2 ^ 64 ∧
    (⟨[7, 8], 1, [7, 8], [(7, 1), (8, 2)]⟩ : InputDevicePool).token_start
      + (⟨[7, 8], 1, [7, 8], [(7, 1), (8, 2)]⟩ : InputDevicePool).devices.length
      ≤ 2 ^ 64 ∧
    (⟨[7, 8], 1, [7, 8], [(7, 1), (8, 2)]⟩ : InputDevicePool).contains 0 = false :=
  ⟨by decide, by decide, by decide,
    (c9_contains_bounds_check ⟨[7, 8], 1, [7, 8], [(7, 1), (8, 2)]⟩ 0
      (by decide) (by decide) (by decide)).2 (by decide)⟩

/-- C10: `insert` is not atomic when the multiplexer registration fails:
for a fresh path the device has already been pushed onto the device vector
and the path added to the path set when the error is returned, the
registration list is untouched, and (when registrations previously matched
devices one-to-one) the pool contents no longer match the multiplexer
registrations. -/
theorem c10_insert_not_atomic (p : InputDevicePool) (d : DevPath)
    (hd : d ∉ p.pathes) (hlen : p.registry.length = p.devices.length) :
    (p.insertE d false).2 = false ∧
    (p.insertE d false).1.devices = p.devices ++ [d] ∧
    (p.insertE d false).1.pathes = d :: p.pathes ∧
    (p.insertE d false).1.registry = p.registry ∧
    (p.insertE d false).1.registry.length
      ≠ (p.insertE d false).1.devices.length := by
  rw [insertE_not_mem_fail p d hd]
  refine ⟨rfl, rfl, rfl, rfl, ?_⟩
  show p.registry.length ≠ (p.devices ++ [d]).length
  simp only [List.length_append, List.length_cons, List.length_nil, hlen]
  omega

theorem c10_insert_not_atomic_witness :
    (5 ∉ (InputDevicePool.new 0).pathes) ∧
    ((InputDevicePool.new 0).insertE 5 false).2 = false ∧
    ((InputDevicePool.new 0).insertE 5 false).1.devices
      = (InputDevicePool.new 0).devices ++ [5] ∧
    ((InputDevicePool.new 0).insertE 5 false).1.registry.length
      ≠ ((InputDevicePool.new 0).insertE 5 false).1.devices.length :=
  ⟨by decide,
    (c10_insert_not_atomic (InputDevicePool.new 0) 5 (by decide) (by decide)).1,
    (c10_insert_not_atomic (InputDevicePool.new 0) 5 (by decide) (by decide)).2.1,
    (c10_insert_not_atomic (InputDevicePool.new 0) 5 (by decide) (by decide)).2.2.2.2⟩

/-! ### The motion integrator -/

/-- Inside the i32 range the saturating cast is plain truncation toward
zero. -/
theorem ratTrunc_of_small (q : Rat) (h : |q| < 2 ^ 31) :
    ratTrunc q = if 0 ≤ q then ⌊q⌋ else ⌈q⌉ := by
  obtain ⟨hlo, hhi⟩ := abs_lt.1 h
  unfold ratTrunc
  by_cases h0 : 0 ≤ q
  · rw [if_pos h0]
    have hup : ⌊q⌋ ≤ 2 ^ 31 - 1 := by
      have hf : ⌊q⌋ < (2 ^ 31 : Int) := by
        rw [Int.floor_lt]
        push_cast
        linarith
      omega
    have hdn : -(2 ^ 31 : Int) ≤ ⌊q⌋ := by
      have hf : (0 : Int) ≤ ⌊q⌋ := Int.floor_nonneg.2 h0
      omega
    rw [min_eq_right hup, max_eq_right hdn]
  · rw [if_neg h0]
    push_neg at h0
    have hup : ⌈q⌉ ≤ 2 ^ 31 - 1 := by
      have hc : ⌈q⌉ ≤ (0 : Int) := by
        rw [Int.ceil_le]
        push_cast
        linarith
      omega
    have hdn : -(2 ^ 31 : Int) ≤ ⌈q⌉ := by
      have hc : (-(2 ^ 31) : Int) < ⌈q⌉ := by
        rw [Int.lt_ceil]
        push_cast
        linarith
      omega
    rw [min_eq_right hup, max_eq_right hdn]

theorem abs_sub_ratTrunc_lt_one (q : Rat) (hq : |q| < 2 ^ 31) :
    |q - (ratTrunc q : Int)| < 1 := by
  rw [ratTrunc_of_small q hq]
  by_cases h : 0 ≤ q
  · rw [if_pos h]
    have h1 : (0 : Rat) ≤ q - ⌊q⌋ := Int.fract_nonneg q
    have h2 : q - (⌊q⌋ : Rat) < 1 := Int.fract_lt_one q
    rw [abs_of_nonneg h1]
    linarith
  · rw [if_neg h]
    have h1 : q ≤ (⌈q⌉ : Rat) := Int.le_ceil q
    have h2 : (⌈q⌉ : Rat) < q + 1 := Int.ceil_lt_add_one q
    rw [abs_of_nonpos (by linarith)]
    linarith

theorem send_event_spec (m : VMouseManager) (dt : Rat) :
    (m.send_event dt).dx
      = (if 1 ≤ |preX m dt| then preX m dt - ratTrunc (preX m dt)
         else preX m dt) ∧
    (m.send_event dt).dy
      = (if 1 ≤ |preY m dt| then preY m dt - ratTrunc (preY m dt)
         else preY m dt) ∧
    (m.send_event dt).vmouse.trace = m.vmouse.trace
      ++ (if 1 ≤ |preX m dt| then [Ev.rel Axis.ax (ratTrunc (preX m dt)), Ev.syn]
          else [])
      ++ (if 1 ≤ |preY m dt| then [Ev.rel Axis.ay (ratTrunc (preY m dt)), Ev.syn]
          else []) := by
  unfold VMouseManager.send_event preX preY UInputMouse.move_mouse_x
    UInputMouse.move_mouse_y UInputMouse.move_mouse
  by_cases hx : 1 ≤ |m.dx + dt * m.speed_multiplier * m.ddx| <;>
    by_cases hy : 1 ≤ |m.dy + dt * m.speed_multiplier * m.ddy| <;>
      simp [hx, hy]

/-- C2 (counterexample): the `as i32` cast saturates, so a large finite
accumulator violates the claimed remainder bound: a flush arriving at
`dx = 3e9` (exactly representable in f32) emits the saturated
`i32::MAX = 2147483647` and leaves a remainder of `852516353`, far above
one.  (The f32 program leaves `852516352`, the emitted integer being
rounded on its conversion back to f32; the claimed bound fails either
way.) -/
theorem c2_counterexample_cast_saturation :
    preX ⟨⟨[]⟩, 3000000000, 0, 0, 0, 1, 0, 0⟩ 1 = 3000000000 ∧
    ((⟨⟨[]⟩, 3000000000, 0, 0, 0, 1, 0, 0⟩ : VMouseManager).send_event 1).dx
      = 852516353 ∧
    ¬ |((⟨⟨[]⟩, 3000000000, 0, 0, 0, 1, 0, 0⟩ : VMouseManager).send_event
        1).dx| < 1 := by
  have hpx : preX ⟨⟨[]⟩, 3000000000, 0, 0, 0, 1, 0, 0⟩ 1 = 3000000000 := by
    norm_num [preX]
  have htr : ratTrunc (3000000000 : Rat) = 2147483647 := by norm_num [ratTrunc]
  have hx : 1 ≤ |preX ⟨⟨[]⟩, 3000000000, 0, 0, 0, 1, 0, 0⟩ 1| := by
    rw [hpx, abs_of_nonneg (by norm_num)]
    norm_num
  obtain ⟨h1, -, -⟩ := send_event_spec ⟨⟨[]⟩, 3000000000, 0, 0, 0, 1, 0, 0⟩ 1
  rw [if_pos hx, hpx, htr] at h1
  have hval : ((⟨⟨[]⟩, 3000000000, 0, 0, 0, 1, 0, 0⟩ : VMouseManager).send_event
      1).dx = 852516353 := by
    rw [h1]
    push_cast
    norm_num
  refine ⟨hpx, hval, ?_⟩
  rw [hval, abs_of_nonneg (by norm_num)]
  norm_num

/-- C2 (amended): for pre-flush accumulator values within the exact range
of the `as i32` cast (magnitude below `2 ^ 31`), after every flush each
axis remainder has magnitude strictly below one: when the accumulated
value reaches magnitude `1.0` its truncation toward zero is emitted and
subtracted from the remainder, and when it is below `1.0` nothing is
emitted for that axis and the remainder is kept.  Beyond that range the
saturating cast leaves a remainder of magnitude at least one (see the
counterexample). -/
theorem c2_amended_flush_remainder_invariant (m : VMouseManager) (dt : Rat)
    (hx31 : |preX m dt| < 2 ^ 31) (hy31 : |preY m dt| < 2 ^ 31) :
    |(m.send_event dt).dx| < 1 ∧ |(m.send_event dt).dy| < 1 ∧
    (1 ≤ |preX m dt| →
      (m.send_event dt).dx = preX m dt - ratTrunc (preX m dt)) ∧
    (|preX m dt| < 1 → (m.send_event dt).dx = preX m dt) ∧
    (1 ≤ |preY m dt| →
      (m.send_event dt).dy = preY m dt - ratTrunc (preY m dt)) ∧
    (|preY m dt| < 1 → (m.send_event dt).dy = preY m dt) ∧
    (m.send_event dt).vmouse.trace = m.vmouse.trace
      ++ (if 1 ≤ |preX m dt| then [Ev.rel Axis.ax (ratTrunc (preX m dt)), Ev.syn]
          else [])
      ++ (if 1 ≤ |preY m dt| then [Ev.rel Axis.ay (ratTrunc (preY m dt)), Ev.syn]
          else []) := by
  obtain ⟨h1, h2, h3⟩ := send_event_spec m dt
  refine ⟨?_, ?_, fun h => by rw [h1, if_pos h],
    fun h => by rw [h1, if_neg (not_le.2 h)],
    fun h => by rw [h2, if_pos h],
    fun h => by rw [h2, if_neg (not_le.2 h)], h3⟩
  · rw [h1]
    split_ifs with h
    · exact abs_sub_ratTrunc_lt_one _ hx31
    · exact lt_of_not_le h
  · rw [h2]
    split_ifs with h
    · exact abs_sub_ratTrunc_lt_one _ hy31
    · exact lt_of_not_le h

theorem c2_amended_flush_remainder_invariant_witness :
    |preX ⟨⟨[]⟩, 2, 1/4, 0, 0, 1, 0, 0⟩ 1| < 2 ^ 31 ∧
    |preY ⟨⟨[]⟩, 2, 1/4, 0, 0, 1, 0, 0⟩ 1| < 2 ^ 31 ∧
    1 ≤ |preX ⟨⟨[]⟩, 2, 1/4, 0, 0, 1, 0, 0⟩ 1| ∧
    |preY ⟨⟨[]⟩, 2, 1/4, 0, 0, 1, 0, 0⟩ 1| < 1 ∧
    |((⟨⟨[]⟩, 2, 1/4, 0, 0, 1, 0, 0⟩ : VMouseManager).send_event 1).dx| < 1 ∧
    ((⟨⟨[]⟩, 2, 1/4, 0, 0, 1, 0, 0⟩ : VMouseManager).send_event 1).dx
      = preX ⟨⟨[]⟩, 2, 1/4, 0, 0, 1, 0, 0⟩ 1
        - ratTrunc (preX ⟨⟨[]⟩, 2, 1/4, 0, 0, 1, 0, 0⟩ 1) ∧
    ((⟨⟨[]⟩, 2, 1/4, 0, 0, 1, 0, 0⟩ : VMouseManager).send_event 1).dy
      = preY ⟨⟨[]⟩, 2, 1/4, 0, 0, 1, 0, 0⟩ 1 := by
  have hpx : preX ⟨⟨[]⟩, 2, 1/4, 0, 0, 1, 0, 0⟩ 1 = 2 := by norm_num [preX]
  have hpy : preY ⟨⟨[]⟩, 2, 1/4, 0, 0, 1, 0, 0⟩ 1 = 1/4 := by norm_num [preY]
  have hx31 : |preX ⟨⟨[]⟩, 2, 1/4, 0, 0, 1, 0, 0⟩ 1| < 2 ^ 31 := by
    rw [hpx, abs_of_nonneg (by norm_num)]
    norm_num
  have hy31 : |preY ⟨⟨[]⟩, 2, 1/4, 0, 0, 1, 0, 0⟩ 1| < 2 ^ 31 := by
    rw [hpy, abs_of_nonneg (by norm_num)]
    norm_num
  have hx : 1 ≤ |preX ⟨⟨[]⟩, 2, 1/4, 0, 0, 1, 0, 0⟩ 1| := by
    rw [hpx, abs_of_nonneg (by norm_num)]
    norm_num
  have hy : |preY ⟨⟨[]⟩, 2, 1/4, 0, 0, 1, 0, 0⟩ 1| < 1 := by
    rw [hpy, abs_of_nonneg (by norm_num)]
    norm_num
  exact ⟨hx31, hy31, hx, hy,
    (c2_amended_flush_remainder_invariant _ 1 hx31 hy31).1,
    (c2_amended_flush_remainder_invariant _ 1 hx31 hy31).2.2.1 hx,
    (c2_amended_flush_remainder_invariant _ 1 hx31 hy31).2.2.2.2.2.1 hy⟩

/-! ### Long-run drift of the integrator -/

theorem flushAxis_emit_add_rem (mult r dt v : Rat) :
    ((flushAxis mult r dt v).2 : Rat) + (flushAxis mult r dt v).1
      = r + dt * mult * v := by
  simp only [flushAxis]
  split_ifs with h
  · push_cast
    ring
  · push_cast
    ring

theorem flushAxis_rem_lt_one (mult r dt v : Rat)
    (h31 : |r + dt * mult * v| < 2 ^ 31) :
    |(flushAxis mult r dt v).1| < 1 := by
  simp only [flushAxis]
  split_ifs with h
  · simpa using abs_sub_ratTrunc_lt_one (r + dt * mult * v) h31
  · simpa using lt_of_not_le h

theorem runFlushes_spec (mult : Rat) (ps : List (Rat × Rat)) (r : Rat) (tot : Int) :
    ((runFlushes mult r tot ps).2 : Rat) + (runFlushes mult r tot ps).1
      = (tot : Rat) + r + (ps.map (fun p => p.1 * mult * p.2)).sum ∧
    (|r| < 1 → (∀ p ∈ ps, |p.1 * mult * p.2| < 2 ^ 31 - 1) →
      |(runFlushes mult r tot ps).1| < 1) := by
  induction ps generalizing r tot with
  | nil => simp [runFlushes]
  | cons p rest ih =>
    obtain ⟨ih1, ih2⟩ :=
      ih (flushAxis mult r p.1 p.2).1 (tot + (flushAxis mult r p.1 p.2).2)
    have hstep : runFlushes mult r tot (p :: rest)
        = runFlushes mult (flushAxis mult r p.1 p.2).1
            (tot + (flushAxis mult r p.1 p.2).2) rest := rfl
    constructor
    · rw [hstep, ih1]
      have key := flushAxis_emit_add_rem mult r p.1 p.2
      simp only [List.map_cons, List.sum_cons]
      push_cast
      linarith
    · intro hr hb
      rw [hstep]
      have hb0 : |p.1 * mult * p.2| < 2 ^ 31 - 1 := hb p (by simp)
      have h31 : |r + p.1 * mult * p.2| < 2 ^ 31 := by
        calc |r + p.1 * mult * p.2| ≤ |r| + |p.1 * mult * p.2| := abs_add _ _
          _ < 2 ^ 31 := by linarith
      exact ih2 (flushAxis_rem_lt_one mult r p.1 p.2 h31)
        (fun q hq => hb q (by simp [hq]))

theorem flushAxis_step_half : flushAxis 100 0 (1/200) 1 = (1/2, 0) := by
  have habs : |(0 : Rat) + 1 / 200 * 100 * 1| = 1 / 2 := by
    rw [show (0 : Rat) + 1 / 200 * 100 * 1 = 1 / 2 by norm_num]
    rw [abs_of_nonneg (by norm_num)]
  simp only [flushAxis, habs]
  norm_num

theorem flushAxis_step_whole : flushAxis 100 (1/2) (1/200) 1 = (0, 1) := by
  have heq : (1 / 2 : Rat) + 1 / 200 * 100 * 1 = 1 := by norm_num
  have habs : |(1 / 2 : Rat) + 1 / 200 * 100 * 1| = 1 := by
    rw [heq, abs_of_nonneg (by norm_num)]
  have htr : ratTrunc ((1 / 2 : Rat) + 1 / 200 * 100 * 1) = 1 := by
    rw [heq]
    norm_num [ratTrunc]
  simp only [flushAxis, habs, htr, heq]
  norm_num [ratTrunc]

/-- C3 (counterexample): a single flush whose increment exceeds the i32
range refutes the universal no-drift claim: with
`dt * speed_multiplier * velocity = 3e9` the saturating cast emits
`2147483647`, leaving the cumulative emitted total `852516353` short of
the exact integral — not strictly within one unit. -/
theorem c3_counterexample_cast_saturation :
    (runFlushes 1 0 0 [(1, 3000000000)]).2 = 2147483647 ∧
    ¬ |((runFlushes 1 0 0 [(1, 3000000000)]).2 : Rat)
        - ([((1 : Rat), (3000000000 : Rat))].map
            (fun p => p.1 * 1 * p.2)).sum| < 1 := by
  have htr : ratTrunc ((0 : Rat) + 1 * 1 * 3000000000) = 2147483647 := by
    norm_num [ratTrunc]
  have habs : |(0 : Rat) + 1 * 1 * 3000000000| = 3000000000 := by
    rw [show (0 : Rat) + 1 * 1 * 3000000000 = 3000000000 by norm_num]
    rw [abs_of_nonneg (by norm_num)]
  have hstep : flushAxis 1 0 1 3000000000 = (852516353, 2147483647) := by
    simp only [flushAxis, habs, htr]
    norm_num
  have hrun : runFlushes 1 0 0 [(1, 3000000000)] = (852516353, 2147483647) := by
    simp [runFlushes, hstep]
  refine ⟨by rw [hrun], ?_⟩
  rw [hrun]
  simp only [List.map_cons, List.map_nil, List.sum_cons, List.sum_nil]
  rw [show ((2147483647 : Int) : Rat) - ((1 : Rat) * 1 * 3000000000 + 0)
      = -852516353 by push_cast; norm_num]
  rw [abs_neg, abs_of_nonneg (by norm_num)]
  norm_num

/-- C3 (amended): over the exact-arithmetic model of the accumulators,
when every per-flush increment `dt * speed_multiplier * velocity` stays
strictly below the saturation range of the `as i32` cast, the cumulative
emitted whole-unit displacement differs from the exact sum of the
increments by strictly less than one unit — the remainder carries the
whole error; concretely, with `speed_multiplier = 100` and `velocity = 1`,
ten flushes at `dt = 0.005` emit a total of exactly `5`, and over `1000`
such flushes the cumulative error stays below one unit (these concrete
runs involve only the values 0.5 and 1.0, which f32 represents and adds
exactly).  Increments beyond the cast's range drift without bound (see
the counterexample). -/
theorem c3_amended_bounded_no_drift :
    (∀ (mult : Rat) (ps : List (Rat × Rat)),
      (∀ p ∈ ps, |p.1 * mult * p.2| < 2 ^ 31 - 1) →
      |((runFlushes mult 0 0 ps).2 : Rat)
          - (ps.map (fun p => p.1 * mult * p.2)).sum| < 1) ∧
    runFlushes 100 0 0 (List.replicate 10 (1/200, 1)) = (0, 5) ∧
    |((runFlushes 100 0 0 (List.replicate 1000 (1/200, 1))).2 : Rat) - 500| < 1 := by
  have hgen : ∀ (mult : Rat) (ps : List (Rat × Rat)),
      (∀ p ∈ ps, |p.1 * mult * p.2| < 2 ^ 31 - 1) →
      |((runFlushes mult 0 0 ps).2 : Rat)
          - (ps.map (fun p => p.1 * mult * p.2)).sum| < 1 := by
    intro mult ps hb
    obtain ⟨h1, h2⟩ := runFlushes_spec mult ps 0 0
    have h3 := h2 (by norm_num) hb
    have h4 : ((runFlushes mult 0 0 ps).2 : Rat)
        - (ps.map fun p => p.1 * mult * p.2).sum
        = -(runFlushes mult 0 0 ps).1 := by
      push_cast at h1
      linarith
    rw [h4, abs_neg]
    exact h3
  refine ⟨hgen, ?_, ?_⟩
  · rw [(rfl : List.replicate 10 ((1 : Rat)/200, (1 : Rat))
      = [(1/200, 1), (1/200, 1), (1/200, 1), (1/200, 1), (1/200, 1),
         (1/200, 1), (1/200, 1), (1/200, 1), (1/200, 1), (1/200, 1)])]
    norm_num [runFlushes, flushAxis_step_half, flushAxis_step_whole]
  · have hb : ∀ p ∈ List.replicate 1000 ((1 : Rat)/200, (1 : Rat)),
        |p.1 * 100 * p.2| < 2 ^ 31 - 1 := by
      intro p hp
      rw [List.eq_of_mem_replicate hp]
      rw [show ((1 : Rat)/200, (1 : Rat)).1 * 100 * ((1 : Rat)/200, (1 : Rat)).2
          = 1/2 by norm_num]
      rw [abs_of_nonneg (by norm_num)]
      norm_num
    have h := hgen 100 (List.replicate 1000 (1/200, 1)) hb
    have hsum : ((List.replicate 1000 ((1 : Rat)/200, (1 : Rat))).map
        (fun p => p.1 * 100 * p.2)).sum = 500 := by
      rw [List.map_replicate, List.sum_replicate]
      norm_num
    rw [hsum] at h
    exact h

theorem c3_amended_bounded_no_drift_witness :
    (∀ p ∈ [((1 : Rat), (1 : Rat)/2)], |p.1 * 1 * p.2| < 2 ^ 31 - 1) ∧
    |((runFlushes 1 0 0 [(1, 1/2)]).2 : Rat)
        - ([((1 : Rat), (1 : Rat)/2)].map (fun p => p.1 * 1 * p.2)).sum| < 1 := by
  have hb : ∀ p ∈ [((1 : Rat), (1 : Rat)/2)], |p.1 * 1 * p.2| < 2 ^ 31 - 1 := by
    intro p hp
    simp only [List.mem_singleton] at hp
    subst hp
    rw [show ((1 : Rat), (1 : Rat)/2).1 * 1 * ((1 : Rat), (1 : Rat)/2).2
        = 1/2 by norm_num]
    rw [abs_of_nonneg (by norm_num)]
    norm_num
  exact ⟨hb, c3_amended_bounded_no_drift.1 1 [(1, 1/2)] hb⟩

/-! ### Axis normalization (C4) and the two transform variants (C6) -/

/-- C4: for the configuration `offset = 0`, `dead_zone = 50`,
`half_amplitude = 300`, the `convert` closure maps `0 ↦ 0`, `50 ↦ 0`,
`300 ↦ 1`, `-300 ↦ -1`, `175 ↦ 0.5`, and on every input it computes
`sign(raw - offset) * clamp((|raw - offset| - dead_zone) /
(half_amplitude - dead_zone), 0, 1)` with the mathematical sign
convention (`sign 0 = 0`). -/
theorem c4_convert_normalization :
    convert ⟨50, 300, 0⟩ 0 = 0 ∧
    convert ⟨50, 300, 0⟩ 50 = 0 ∧
    convert ⟨50, 300, 0⟩ 300 = 1 ∧
    convert ⟨50, 300, 0⟩ (-300) = -1 ∧
    convert ⟨50, 300, 0⟩ 175 = 1/2 ∧
    (∀ raw : Rat, convert ⟨50, 300, 0⟩ raw =
      (if raw < 0 then (-1 : Rat) else if raw = 0 then 0 else 1) *
        fclamp ((|raw - 0| - 50) / (300 - 50)) 0 1) := by
  refine ⟨by norm_num [convert, fsignum, fclamp],
    by norm_num [convert, fsignum, fclamp],
    by norm_num [convert, fsignum, fclamp, abs_of_nonneg],
    by norm_num [convert, fsignum, fclamp, abs_of_nonpos],
    by norm_num [convert, fsignum, fclamp, abs_of_nonneg], ?_⟩
  intro raw
  have hshape : convert ⟨50, 300, 0⟩ raw
      = fsignum (raw - 0) * fclamp ((|raw - 0| - 50) / (300 - 50)) 0 1 := by
    simp only [convert]
  rw [hshape]
  rcases lt_trichotomy raw 0 with h | h | h
  · rw [sub_zero, show fsignum raw = -1 from if_pos h, if_pos h]
  · subst h
    norm_num [fsignum, fclamp]
  · rw [sub_zero, show fsignum raw = 1 from if_neg (not_lt.2 (le_of_lt h)),
      if_neg (not_lt.2 (le_of_lt h)), if_neg (ne_of_gt h)]

/-- C6: the two historical `map_event` variants diverge: for the rotation
coefficients `(sin, cos) = (3/5, 4/5)` (a genuine non-zero angle, the pair
lies on the unit circle), a non-zero dead zone `50` and last-seen raw axis
values `(300, 0)`, the library variant (normalize each axis, then rotate)
and the binary variant (rotate the raw pair, then normalize) produce
different `ddx` outputs (`4/5` versus `19/25`). -/
theorem c6_transform_variants_diverge :
    ((3 : Rat)/5 ≠ 0) ∧
    ((3 : Rat)/5) ^ 2 + ((4 : Rat)/5) ^ 2 = 1 ∧
    (⟨50, 300, 0⟩ : JoystickConfig).dead_zone ≠ 0 ∧
    ((⟨⟨[]⟩, 0, 0, 0, 0, 1, 0, 0⟩ : VMouseManager).map_event_lib ⟨50, 300, 0⟩
        (3/5) (4/5) (AbsEvent.absX 300)).ddx
      ≠ ((⟨⟨[]⟩, 0, 0, 0, 0, 1, 0, 0⟩ : VMouseManager).map_event_src ⟨50, 300, 0⟩
        (3/5) (4/5) (AbsEvent.absX 300)).ddx := by
  have hlib : ((⟨⟨[]⟩, 0, 0, 0, 0, 1, 0, 0⟩ : VMouseManager).map_event_lib
      ⟨50, 300, 0⟩ (3/5) (4/5) (AbsEvent.absX 300)).ddx = 4/5 := by
    norm_num [VMouseManager.map_event_lib, VMouseManager.record_event, convert,
      fsignum, fclamp, abs_of_nonneg]
  have hsrc : ((⟨⟨[]⟩, 0, 0, 0, 0, 1, 0, 0⟩ : VMouseManager).map_event_src
      ⟨50, 300, 0⟩ (3/5) (4/5) (AbsEvent.absX 300)).ddx = 19/25 := by
    norm_num [VMouseManager.map_event_src, VMouseManager.record_event, convert,
      fsignum, fclamp, abs_of_nonneg]
  refine ⟨by norm_num, by norm_num, by norm_num, ?_⟩
  rw [hlib, hsrc]
  norm_num

/-! ### Emission atomicity (C8) -/

/-- C8 (counterexample): a single flush that produces both a non-zero X
delta and a non-zero Y delta writes each axis event followed by its own
`SYN_REPORT` — the trace carries two synchronization markers, not the
single one the claim requires. -/
theorem c8_counterexample_two_syncs :
    ((⟨⟨[]⟩, 5/2, 7/2, 0, 0, 1, 0, 0⟩ : VMouseManager).send_event 1).vmouse.trace
      = [Ev.rel Axis.ax 2, Ev.syn, Ev.rel Axis.ay 3, Ev.syn] ∧
    (((⟨⟨[]⟩, 5/2, 7/2, 0, 0, 1, 0, 0⟩ : VMouseManager).send_event
        1).vmouse.trace.count Ev.syn) = 2 ∧
    ratTrunc (preX ⟨⟨[]⟩, 5/2, 7/2, 0, 0, 1, 0, 0⟩ 1) = 2 ∧
    ratTrunc (preY ⟨⟨[]⟩, 5/2, 7/2, 0, 0, 1, 0, 0⟩ 1) = 3 := by
  have hpx : preX ⟨⟨[]⟩, 5/2, 7/2, 0, 0, 1, 0, 0⟩ 1 = 5/2 := by norm_num [preX]
  have hpy : preY ⟨⟨[]⟩, 5/2, 7/2, 0, 0, 1, 0, 0⟩ 1 = 7/2 := by norm_num [preY]
  have hx : 1 ≤ |preX ⟨⟨[]⟩, 5/2, 7/2, 0, 0, 1, 0, 0⟩ 1| := by
    rw [hpx, abs_of_nonneg (by norm_num)]
    norm_num
  have hy : 1 ≤ |preY ⟨⟨[]⟩, 5/2, 7/2, 0, 0, 1, 0, 0⟩ 1| := by
    rw [hpy, abs_of_nonneg (by norm_num)]
    norm_num
  have htx : ratTrunc (preX ⟨⟨[]⟩, 5/2, 7/2, 0, 0, 1, 0, 0⟩ 1) = 2 := by
    rw [hpx]
    norm_num [ratTrunc]
  have hty : ratTrunc (preY ⟨⟨[]⟩, 5/2, 7/2, 0, 0, 1, 0, 0⟩ 1) = 3 := by
    rw [hpy]
    norm_num [ratTrunc]
  obtain ⟨-, -, h3⟩ := send_event_spec ⟨⟨[]⟩, 5/2, 7/2, 0, 0, 1, 0, 0⟩ 1
  rw [if_pos hx, if_pos hy, htx, hty] at h3
  refine ⟨?_, ?_, htx, hty⟩
  · rw [h3]
    rfl
  · rw [h3]
    rfl

/-- C8 (amended): when one flush emits both axes, the two deltas are
written and synchronized separately: the appended events are the X event,
a `SYN_REPORT`, the Y event, and a second `SYN_REPORT` — not one coalesced
atomic report. -/
theorem c8_amended_per_axis_sync (m : VMouseManager) (dt : Rat)
    (hx : 1 ≤ |preX m dt|) (hy : 1 ≤ |preY m dt|) :
    (m.send_event dt).vmouse.trace = m.vmouse.trace
      ++ [Ev.rel Axis.ax (ratTrunc (preX m dt)), Ev.syn,
          Ev.rel Axis.ay (ratTrunc (preY m dt)), Ev.syn] := by
  obtain ⟨-, -, h3⟩ := send_event_spec m dt
  rw [h3, if_pos hx, if_pos hy, List.append_assoc]
  rfl

theorem c8_amended_per_axis_sync_witness :
    1 ≤ |preX ⟨⟨[Ev.syn]⟩, 3/2, 5/2, 0, 0, 1, 0, 0⟩ 1| ∧
    1 ≤ |preY ⟨⟨[Ev.syn]⟩, 3/2, 5/2, 0, 0, 1, 0, 0⟩ 1| ∧
    ((⟨⟨[Ev.syn]⟩, 3/2, 5/2, 0, 0, 1, 0, 0⟩ : VMouseManager).send_event
        1).vmouse.trace
      = (⟨⟨[Ev.syn]⟩, 3/2, 5/2, 0, 0, 1, 0, 0⟩ : VMouseManager).vmouse.trace
        ++ [Ev.rel Axis.ax
              (ratTrunc (preX ⟨⟨[Ev.syn]⟩, 3/2, 5/2, 0, 0, 1, 0, 0⟩ 1)), Ev.syn,
            Ev.rel Axis.ay
              (ratTrunc (preY ⟨⟨[Ev.syn]⟩, 3/2, 5/2, 0, 0, 1, 0, 0⟩ 1)), Ev.syn] := by
  have hx : 1 ≤ |preX ⟨⟨[Ev.syn]⟩, 3/2, 5/2, 0, 0, 1, 0, 0⟩ 1| := by
    rw [show preX ⟨⟨[Ev.syn]⟩, 3/2, 5/2, 0, 0, 1, 0, 0⟩ 1 = 3/2 from by
      norm_num [preX]]
    rw [abs_of_nonneg (by norm_num)]
    norm_num
  have hy : 1 ≤ |preY ⟨⟨[Ev.syn]⟩, 3/2, 5/2, 0, 0, 1, 0, 0⟩ 1| := by
    rw [show preY ⟨⟨[Ev.syn]⟩, 3/2, 5/2, 0, 0, 1, 0, 0⟩ 1 = 5/2 from by
      norm_num [preY]]
    rw [abs_of_nonneg (by norm_num)]
    norm_num
  exact ⟨hx, hy, c8_amended_per_axis_sync ⟨⟨[Ev.syn]⟩, 3/2, 5/2, 0, 0, 1, 0, 0⟩ 1 hx hy⟩

/-! ### Event-loop error handling (C7) -/

/-- C7 (counterexample): in the library event loop, an I/O failure that is
neither would-block nor the device-gone os error 19 is fatal — the
dispatch hits `e.expect("Can't fetch events")` and the process aborts
(flag `true`) with the pool unchanged — instead of being logged and
non-fatal as the claim states. -/
theorem c7_counterexample_fatal :
    (⟨false, (none : Option Nat)⟩ : IoErr).isWouldBlock = false ∧
    (⟨false, (none : Option Nat)⟩ : IoErr).rawOs ≠ some 19 ∧
    (libDispatch ⟨[9], 1, [9], [(9, 1)]⟩ 1 (some ⟨false, none⟩)).2 = true ∧
    (libDispatch ⟨[9], 1, [9], [(9, 1)]⟩ 1 (some ⟨false, none⟩)).1
      = ⟨[9], 1, [9], [(9, 1)]⟩ := by
  refine ⟨rfl, by decide, rfl, rfl⟩

/-- C7 (amended): in the binary variant's loop every drain error is only
logged and the device stays registered with the pool unchanged; in the
library variant's loop a would-block error is ignored, the device-gone os
error 19 removes the device by token, any other error aborts the process,
and the pool changes only on a device-gone error. -/
theorem c7_amended_error_dispatch (p : InputDevicePool) (tok : Nat) (e : IoErr) :
    mainDispatch p tok (some e) = (p, false) ∧
    (e.isWouldBlock = true → libDispatch p tok (some e) = (p, false)) ∧
    (e.isWouldBlock = false → e.rawOs = some 19 →
      libDispatch p tok (some e) = (p.delete_from_token tok, false)) ∧
    (e.isWouldBlock = false → e.rawOs ≠ some 19 →
      libDispatch p tok (some e) = (p, true)) ∧
    ((libDispatch p tok (some e)).1 ≠ p →
      e.isWouldBlock = false ∧ e.rawOs = some 19) := by
  refine ⟨rfl, fun h => by simp [libDispatch, h], fun h1 h2 => by
    simp [libDispatch, h1, h2], fun h1 h2 => by simp [libDispatch, h1, h2], ?_⟩
  intro hne
  by_cases hwb : e.isWouldBlock = true
  · exact absurd (by simp [libDispatch, hwb]) hne
  · have hwb' : e.isWouldBlock = false := by
      cases he : e.isWouldBlock
      · rfl
      · exact absurd he hwb
    by_cases hos : e.rawOs = some 19
    · exact ⟨hwb', hos⟩
    · exact absurd (by simp [libDispatch, hwb', hos]) hne

theorem c7_amended_error_dispatch_witness :
    mainDispatch ⟨[9], 1, [9], [(9, 1)]⟩ 1 (some ⟨false, some 19⟩)
      = (⟨[9], 1, [9], [(9, 1)]⟩, false) ∧
    libDispatch ⟨[9], 1, [9], [(9, 1)]⟩ 1 (some ⟨false, some 19⟩)
      = ((⟨[9], 1, [9], [(9, 1)]⟩ : InputDevicePool).delete_from_token 1, false) :=
  ⟨(c7_amended_error_dispatch ⟨[9], 1, [9], [(9, 1)]⟩ 1 ⟨false, some 19⟩).1,
    (c7_amended_error_dispatch ⟨[9], 1, [9], [(9, 1)]⟩ 1 ⟨false, some 19⟩).2.2.1
      rfl rfl⟩
